import Mathlib

/-!
Shallow embedding of the ap-excel-agent workbook engine.

Sources embedded:
  * `server/src/sheet.ts`  — the `SheetModel` class (cell store, operation
    set, event log, undo, formula evaluator, dispatch);
  * `server/src/types.ts`  — the data model;
  * `server/src/agent.ts`  — `executePlan` (the plan executor loop).

Modelling conventions, stated once here:
  * JavaScript objects are modelled as Lean structures.  The one mutable
    structure that is shared by reference across the observable state is the
    per-cell provenance array (`Cell.provenance` in TS).  To capture that
    aliasing faithfully (the shallow `{ ...cell }` copy in `snapshot` shares
    the array with the live cell), the workbook carries an explicit heap of
    provenance arrays (`Workbook.heap`) and a cell stores an `Option Nat`
    reference into that heap.  All other nested values (strings, numbers,
    cell records copied by `{ ... }` spreads) are modelled by value, which
    matches their observable behaviour because the code never mutates them
    in place.
  * JavaScript numbers are modelled as `Int`.  Every value appearing in the
    claims under verification is a small integer; the only JS-float-only
    behaviours (fractional division results, NaN propagation inside the
    generic arithmetic evaluator) are noted where they occur and are not
    relied on by any theorem.
  * A thrown JS exception is modelled as a `some errorMessage` result that is
    returned TOGETHER with the state at the moment of the throw, because a JS
    throw does not roll back mutations already performed.
  * Unbounded recursion (formula evaluation, dynamic-bound loops) is modelled
    with an explicit fuel parameter; running out of fuel yields the distinct
    error string `"model: out of fuel"`, which no theorem conflates with a
    genuine JS error.
  * `Math.random()` event/workbook ids and `Date.now()` timestamps carry no
    semantic content for any claim and are omitted from the model.
-/

deriving instance DecidableEq for Except

/-- Literal cell value: `string | number | null` from `types.ts`. -/
inductive Val where
  | num (n : Int)
  | str (s : String)
  | null
deriving DecidableEq, BEq

/-- `CellProvenance` from `types.ts`: docId plus optional snippet/rationale. -/
structure CellProvenance where
  docId : String
  snippet : Option String := none
  rationale : Option String := none
deriving DecidableEq, BEq

/-- `Cell` from `types.ts`.  The `provenance` field is a reference into
`Workbook.heap` (see the module comment on aliasing); `none` models the JS
`undefined` field. -/
structure Cell where
  value : Val := .null
  formula : Option String := none
  provenance : Option Nat := none
  format : Option String := none
deriving DecidableEq, BEq

/-- The empty cell `{ value: null }` used for padding in `ensureSize`. -/
def emptyCell : Cell := {}

/-- `Sheet` from `types.ts`. -/
structure Sheet where
  name : String
  rows : List (List Cell)
deriving DecidableEq, BEq

/-- `RangeRef` from `types.ts`: sheet plus inclusive zero-based rectangle.
The TS fields are plain numbers; every range constructed by the code paths
under verification has non-negative coordinates, so they are modelled as
`Nat`. -/
structure RangeRef where
  sheet : String
  r1 : Nat
  c1 : Nat
  r2 : Nat
  c2 : Nat
deriving DecidableEq, BEq

/-- Checkpoint record `{ id, atEvent, ts }` (timestamp omitted). -/
structure Checkpoint where
  id : String
  atEvent : Nat
deriving DecidableEq, BEq

/-- Duck-typed operation arguments.  `dispatch` receives an `any`-shaped
object and each case reads the fields it needs; this structure carries every
field any enumerated operation reads, each optional (`none` models a missing
JS field). -/
structure Args where
  name : Option String := none
  sheet : Option Sheet := none
  range : Option RangeRef := none
  values : Option (List (List Val)) := none
  provenance : Option (List CellProvenance) := none
  prov : Option (List CellProvenance) := none
  formulas : Option (List (List (Option String))) := none
  format : Option (Option String) := none
  cells : Option (List (List Cell)) := none
deriving DecidableEq, BEq

/-- The inverse stored on an event: `{ op, args }`. -/
structure InverseSpec where
  op : String
  args : Args
deriving DecidableEq, BEq

/-- `SheetEvent` from `types.ts` (random id and timestamp omitted). -/
structure SheetEvent where
  op : String
  args : Args
  inverse : InverseSpec
  summary : String
deriving DecidableEq, BEq

/-- `Workbook` from `types.ts`.  `sheets` models the insertion-ordered JS
`Map`; `heap` is the explicit store of provenance arrays (see module
comment). -/
structure Workbook where
  sheets : List (String × Sheet)
  checkpoints : List Checkpoint
  events : List SheetEvent
  heap : List (List CellProvenance)
deriving DecidableEq, BEq

/-- `PlanStep` from `types.ts`. -/
structure PlanStep where
  op : String
  args : Args
  explain : Option String := none
deriving DecidableEq, BEq

/-- `Plan` from `types.ts`. -/
structure Plan where
  steps : List PlanStep
  summary : Option String := none
deriving DecidableEq, BEq

/-! ### JS `Map` primitives (insertion-ordered association list) -/

/-- `Map.get` — first binding of the key. -/
def jsMapGet (m : List (String × Sheet)) (k : String) : Option Sheet :=
  match m with
  | [] => none
  | (k0, v0) :: rest => if k0 = k then some v0 else jsMapGet rest k

/-- `Map.has`. -/
def jsMapHas (m : List (String × Sheet)) (k : String) : Bool :=
  match m with
  | [] => false
  | (k0, _) :: rest => if k0 = k then true else jsMapHas rest k

/-- `Map.set` — update in place if the key exists (keeping its position),
otherwise append. -/
def jsMapSet (m : List (String × Sheet)) (k : String) (v : Sheet) :
    List (String × Sheet) :=
  match m with
  | [] => [(k, v)]
  | (k0, v0) :: rest =>
      if k0 = k then (k0, v) :: rest else (k0, v0) :: jsMapSet rest k v

/-- `Map.delete` — remove the binding of the key. -/
def jsMapDelete (m : List (String × Sheet)) (k : String) :
    List (String × Sheet) :=
  match m with
  | [] => []
  | (k0, v0) :: rest =>
      if k0 = k then rest else (k0, v0) :: jsMapDelete rest k

/-! ### Character and string helpers (JS string primitives used by sheet.ts) -/

/-- JS regex `[A-Za-z]`. -/
def isAsciiLetter (c : Char) : Bool :=
  (65 ≤ c.toNat && c.toNat ≤ 90) || (97 ≤ c.toNat && c.toNat ≤ 122)

/-- JS regex `[0-9]`. -/
def isAsciiDigit (c : Char) : Bool :=
  48 ≤ c.toNat && c.toNat ≤ 57

/-- JS regex word character `[A-Za-z0-9_]` (the class behind `\b`). -/
def isWordChar (c : Char) : Bool :=
  isAsciiLetter c || isAsciiDigit c || c = '_'

/-- JS whitespace as used by `trim` (the claims only involve the ASCII
whitespace characters). -/
def isWsChar (c : Char) : Bool :=
  c = ' ' || c = '\t' || c = '\n' || c = '\r'

/-- `String.prototype.trim` on an exploded string. -/
def trimChars (cs : List Char) : List Char :=
  ((cs.dropWhile isWsChar).reverse.dropWhile isWsChar).reverse

/-- Decimal digits of a natural number, most significant first (the digits
produced by JS number-to-string conversion for a non-negative integer).
Structural fuel: `fuel ≥ n` suffices. -/
def natCharsAux : Nat → Nat → List Char
  | 0, _ => []
  | fuel + 1, n =>
      if n < 10 then [Char.ofNat (48 + n)]
      else natCharsAux fuel (n / 10) ++ [Char.ofNat (48 + n % 10)]

/-- JS `String(n)` for a non-negative integer. -/
def natChars (n : Nat) : List Char := natCharsAux (n + 1) n

/-- JS `String(n)` for an `Int` (used for substituted formula tokens and for
the cycle-detection keys). -/
def intChars (n : Int) : List Char :=
  if n < 0 then '-' :: natChars n.natAbs else natChars n.natAbs

/-- JS `String(n)` as a Lean `String`. -/
def intToStr (n : Int) : String := String.mk (intChars n)

/-- Value of a decimal-digit character. -/
def digitVal (c : Char) : Nat := c.toNat - 48

/-- `parseInt` on a non-empty all-digit string (the only way sheet.ts uses
it: the digits group of an already matched A1 reference). -/
def natFromDigits (cs : List Char) : Nat :=
  cs.foldl (fun acc c => acc * 10 + digitVal c) 0

/-- JS `Number(str)` restricted to the integer grammar: optional sign and
decimal digits, surrounded by optional whitespace; the empty (or
all-whitespace) string is 0.  Returns `none` for NaN.  JS additionally parses
float/hex literals, which no claim exercises. -/
def jsNumberChars (cs0 : List Char) : Option Int :=
  let cs := trimChars cs0
  match cs with
  | [] => some 0
  | '-' :: rest =>
      if rest ≠ [] && rest.all isAsciiDigit then some (-(natFromDigits rest : Int))
      else none
  | '+' :: rest =>
      if rest ≠ [] && rest.all isAsciiDigit then some ((natFromDigits rest : Int))
      else none
  | _ =>
      if cs.all isAsciiDigit then some ((natFromDigits cs : Int)) else none

/-- JS `Number(v)` on a cell value: numbers pass through, `null` is 0,
strings go through the numeric grammar.  `none` models NaN. -/
def jsNumberVal (v : Val) : Option Int :=
  match v with
  | .num n => some n
  | .null => some 0
  | .str s => jsNumberChars s.data

/-! ### A1 reference conversion (`SheetModel.a1ToRc`, `SheetModel.rcToA1`) -/

/-- Match of the regex `^([A-Za-z]+)([0-9]+)$`: the letters group and the
digits group, or `none` when the string does not match. -/
def a1Split (cs : List Char) : Option (List Char × List Char) :=
  let letters := cs.takeWhile isAsciiLetter
  let rest := cs.dropWhile isAsciiLetter
  if !letters.isEmpty && !rest.isEmpty && rest.all isAsciiDigit then
    some (letters, rest)
  else none

/-- Whether a string matches `^[A-Za-z]+[0-9]+$` (a bare A1 reference). -/
def isA1Token (cs : List Char) : Bool := (a1Split cs).isSome

/-- `colStr.charCodeAt(i) - 64` after `toUpperCase`. -/
def colCharVal (c : Char) : Nat := c.toUpper.toNat - 64

/-- `SheetModel.a1ToRc`.  The row is `parseInt(digits) - 1` and may be `-1`
(for a reference like `A0`), hence `Int` coordinates. -/
def a1ToRc (ref : String) : Except String (Int × Int) :=
  match a1Split ref.data with
  | none => .error ("Bad A1 ref: " ++ ref)
  | some (letters, digits) =>
      let row : Int := (natFromDigits digits : Int) - 1
      let col : Nat := letters.foldl (fun acc c => acc * 26 + colCharVal c) 0
      .ok (row, (col : Int) - 1)

/-- The letter part of `SheetModel.rcToA1`: bijective base-26 encoding of
`n = c + 1`, produced by the `while (n > 0)` loop.  Structural fuel:
`fuel ≥ n` suffices since the loop variable strictly decreases. -/
def colLettersAux : Nat → Nat → List Char
  | 0, _ => []
  | fuel + 1, n =>
      if n = 0 then []
      else colLettersAux fuel ((n - 1) / 26) ++ [Char.ofNat (65 + (n - 1) % 26)]

/-- Column letters of `SheetModel.rcToA1`. -/
def colLetters (n : Nat) : List Char := colLettersAux (n + 1) n

/-- `SheetModel.rcToA1` (callers only pass non-negative coordinates). -/
def rcToA1 (r c : Nat) : String :=
  String.mk (colLetters (c + 1) ++ natChars (r + 1))

/-! ### Pure workbook observables (used to state properties) -/

/-- Raw cell lookup: the cell stored at sheet/row/column, if present. -/
def lookupCell (w : Workbook) (s : String) (r c : Nat) : Option Cell :=
  match jsMapGet w.sheets s with
  | none => none
  | some sh =>
      match sh.rows[r]? with
      | none => none
      | some row => row[c]?

/-- Cell contents as observed through the read APIs: an absent cell reads the
same as the empty padding cell. -/
def cellView (w : Workbook) (s : String) (r c : Nat) : Cell :=
  (lookupCell w s r c).getD emptyCell

/-- Observable provenance list of a cell (`cell.provenance ?? []` resolved
through the heap). -/
def provView (w : Workbook) (s : String) (r c : Nat) : List CellProvenance :=
  match (cellView w s r c).provenance with
  | none => []
  | some i => w.heap.getD i []

/-! ### SheetModel private helpers -/

/-- `SheetModel.ensureSize`: grow (never shrink) the named sheet to at least
`rows × cols`, padding with empty cells; every existing row is padded to
`cols`.  A missing sheet is the thrown `getSheet` error. -/
def ensureSize (w : Workbook) (sheetName : String) (rows cols : Int) :
    Workbook × Option String :=
  match jsMapGet w.sheets sheetName with
  | none => (w, some ("Sheet not found: " ++ sheetName))
  | some s =>
      let padded := s.rows ++ List.replicate (rows.toNat - s.rows.length) []
      let rows2 := padded.map
        (fun row => row ++ List.replicate (cols.toNat - row.length) emptyCell)
      ({ w with sheets := jsMapSet w.sheets sheetName { s with rows := rows2 } },
       none)

/-- Row-major list of the coordinates of an inclusive rectangle (the nested
`for` loops over `r1..r2 × c1..c2`). -/
def rectPairs (r1 r2 c1 c2 : Nat) : List (Nat × Nat) :=
  ((List.range (r2 + 1 - r1)).map
    (fun i => (List.range (c2 + 1 - c1)).map (fun j => (r1 + i, c1 + j)))).flatten

/-- `SheetModel.snapshot`: ensure the range exists, then copy each cell in
the rectangle with a shallow `{ ...cell }` spread.  In the heap model the
spread copies the record, so the provenance REFERENCE is shared between the
snapshot and the live cell — exactly the JS aliasing. -/
def snapshot (w : Workbook) (range : RangeRef) :
    Except String (List (List Cell)) × Workbook :=
  match jsMapGet w.sheets range.sheet with
  | none => (.error ("Sheet not found: " ++ range.sheet), w)
  | some _ =>
      let (w1, _) :=
        ensureSize w range.sheet ((range.r2 : Int) + 1) ((range.c2 : Int) + 1)
      let sh := (jsMapGet w1.sheets range.sheet).getD ⟨range.sheet, []⟩
      let out := (List.range (range.r2 + 1 - range.r1)).map
        (fun i => (List.range (range.c2 + 1 - range.c1)).map
          (fun j => (sh.rows.getD (range.r1 + i) []).getD (range.c1 + j) emptyCell))
      (.ok out, w1)

/-- `SheetModel.appendEvent` (random id and timestamp omitted). -/
def appendEvent (w : Workbook) (op : String) (args : Args)
    (inverse : InverseSpec) (summary : String) : Workbook :=
  { w with events := w.events ++ [{ op := op, args := args, inverse := inverse,
                                    summary := summary }] }

/-- `SheetModel.checkpoint` with an explicit id (every call site in scope
passes one; the `uuid()` default is never exercised). -/
def checkpoint (w : Workbook) (id : String) : Workbook :=
  { w with checkpoints := w.checkpoints ++ [⟨id, w.events.length⟩] }

/-! ### SheetOps -/

/-- `SheetModel.createSheet`. -/
def createSheet (w : Workbook) (name : String) : Workbook × Option String :=
  if jsMapHas w.sheets name then (w, some "Sheet exists")
  else
    let w1 := { w with sheets := w.sheets ++ [(name, ⟨name, []⟩)] }
    (appendEvent w1 "createSheet" { name := some name }
      ⟨"deleteSheet", { name := some name }⟩ ("create " ++ name), none)

/-- `SheetModel.deleteSheet`. -/
def deleteSheet (w : Workbook) (name : String) : Workbook × Option String :=
  match jsMapGet w.sheets name with
  | none => (w, some ("Sheet not found: " ++ name))
  | some s =>
      let w1 := { w with sheets := jsMapDelete w.sheets name }
      (appendEvent w1 "deleteSheet" { name := some name }
        ⟨"restoreSheet", { sheet := some s }⟩ ("delete " ++ name), none)

/-- `SheetModel.restoreSheet`. -/
def restoreSheet (w : Workbook) (sheet : Sheet) : Workbook × Option String :=
  let w1 := { w with sheets := jsMapSet w.sheets sheet.name sheet }
  (appendEvent w1 "restoreSheet" { sheet := some sheet }
    ⟨"deleteSheet", { name := some sheet.name }⟩ ("restore " ++ sheet.name),
   none)

/-- Array element assignment `row[i] = x`.  Beyond the current length JS
appends (the loops below only ever write at most one slot past the end, so
the hole-creating branch pads with empty cells and is unreachable from the
operations as dispatched on ordered ranges). -/
def listSetGrow (row : List Cell) (i : Nat) (x : Cell) : List Cell :=
  if i < row.length then row.set i x
  else if i = row.length then row ++ [x]
  else row ++ List.replicate (i - row.length) emptyCell ++ [x]

/-- Inner column loop of `setValues`: write one row of values starting at
column `cc`, clearing formulas.  With a provenance argument each cell gets
its own freshly allocated copy `[...provenance]`; otherwise the previous
reference is kept. -/
def svWriteRow (heap : List (List CellProvenance)) (row : List Cell)
    (cc : Nat) (vals : List Val) (provArg : Option (List CellProvenance)) :
    List (List CellProvenance) × List Cell :=
  match vals with
  | [] => (heap, row)
  | v :: rest =>
      let prev := row.getD cc emptyCell
      let (heap1, ref) :=
        match provArg with
        | some pv => (heap ++ [pv], some heap.length)
        | none => (heap, prev.provenance)
      let cellNew : Cell :=
        { prev with value := v, formula := none, provenance := ref }
      svWriteRow heap1 (listSetGrow row cc cellNew) (cc + 1) rest provArg

/-- Outer row loop of `setValues`.  Reading `s.rows[rr][cc]` with `rr` beyond
the row count throws a TypeError in JS; the error is returned together with
the rows already written (the throw does not roll them back). -/
def svWriteRows (heap : List (List CellProvenance)) (rows : List (List Cell))
    (r1 c1 rr : Nat) (values : List (List Val))
    (provArg : Option (List CellProvenance)) :
    (List (List CellProvenance) × List (List Cell)) × Option String :=
  match values with
  | [] => ((heap, rows), none)
  | vrow :: rest =>
      if r1 + rr < rows.length then
        let row := rows.getD (r1 + rr) []
        let (heap1, row1) := svWriteRow heap row c1 vrow provArg
        svWriteRows heap1 (rows.set (r1 + rr) row1) r1 c1 (rr + 1) rest provArg
      else ((heap, rows), some "TypeError")

/-- `SheetModel.setValues`.  Note the loop bounds come from `values`, not
from the range. -/
def setValues (w : Workbook) (range : RangeRef) (values : List (List Val))
    (provenance : Option (List CellProvenance)) : Workbook × Option String :=
  match snapshot w range with
  | (.error e, w1) => (w1, some e)
  | (.ok before, w1) =>
      let (w2, _) :=
        ensureSize w1 range.sheet ((range.r2 : Int) + 1) ((range.c2 : Int) + 1)
      let sh := (jsMapGet w2.sheets range.sheet).getD ⟨range.sheet, []⟩
      match svWriteRows w2.heap sh.rows range.r1 range.c1 0 values provenance with
      | ((heap1, rows1), err) =>
          let w3 := { w2 with
            sheets := jsMapSet w2.sheets range.sheet { sh with rows := rows1 },
            heap := heap1 }
          match err with
          | some e => (w3, some e)
          | none =>
              (appendEvent w3 "setValues"
                { range := some range, values := some values,
                  provenance := provenance }
                ⟨"setCells", { range := some range, cells := some before }⟩
                ("setValues " ++ range.sheet ++ "!" ++
                  rcToA1 range.r1 range.c1), none)

/-- Inner column loop of `setCells`: raw assignment. -/
def scWriteRow (row : List Cell) (cc : Nat) (cells : List Cell) : List Cell :=
  match cells with
  | [] => row
  | cell :: rest => scWriteRow (listSetGrow row cc cell) (cc + 1) rest

/-- Outer row loop of `setCells` (same TypeError shape as `setValues`). -/
def scWriteRows (rows : List (List Cell)) (r1 c1 rr : Nat)
    (cellRows : List (List Cell)) : List (List Cell) × Option String :=
  match cellRows with
  | [] => (rows, none)
  | crow :: rest =>
      if r1 + rr < rows.length then
        let row1 := scWriteRow (rows.getD (r1 + rr) []) c1 crow
        scWriteRows (rows.set (r1 + rr) row1) r1 c1 (rr + 1) rest
      else (rows, some "TypeError")

/-- `SheetModel.setCells` (internal-only op; inverse is a no-op sentinel). -/
def setCells (w : Workbook) (range : RangeRef) (cells : List (List Cell)) :
    Workbook × Option String :=
  match jsMapGet w.sheets range.sheet with
  | none => (w, some ("Sheet not found: " ++ range.sheet))
  | some _ =>
      let (w1, _) :=
        ensureSize w range.sheet ((range.r2 : Int) + 1) ((range.c2 : Int) + 1)
      let sh := (jsMapGet w1.sheets range.sheet).getD ⟨range.sheet, []⟩
      match scWriteRows sh.rows range.r1 range.c1 0 cells with
      | (rows1, err) =>
          let w2 := { w1 with
            sheets := jsMapSet w1.sheets range.sheet { sh with rows := rows1 } }
          match err with
          | some e => (w2, some e)
          | none =>
              (appendEvent w2 "setCells"
                { range := some range, cells := some cells }
                ⟨"noop", {}⟩ "setCells", none)

/-- Inner column loop of `setFormulas`: `{ ...prev, value: null, formula: f }`
with `f = formulas[r][c] ?? undefined`. -/
def sfWriteRow (row : List Cell) (cc : Nat) (fs : List (Option String)) :
    List Cell :=
  match fs with
  | [] => row
  | f :: rest =>
      let prev := row.getD cc emptyCell
      sfWriteRow
        (listSetGrow row cc { prev with value := .null, formula := f })
        (cc + 1) rest

/-- Outer row loop of `setFormulas`. -/
def sfWriteRows (rows : List (List Cell)) (r1 c1 rr : Nat)
    (formulas : List (List (Option String))) :
    List (List Cell) × Option String :=
  match formulas with
  | [] => (rows, none)
  | frow :: rest =>
      if r1 + rr < rows.length then
        let row1 := sfWriteRow (rows.getD (r1 + rr) []) c1 frow
        sfWriteRows (rows.set (r1 + rr) row1) r1 c1 (rr + 1) rest
      else (rows, some "TypeError")

/-- `SheetModel.setFormulas`. -/
def setFormulas (w : Workbook) (range : RangeRef)
    (formulas : List (List (Option String))) : Workbook × Option String :=
  match snapshot w range with
  | (.error e, w1) => (w1, some e)
  | (.ok before, w1) =>
      let (w2, _) :=
        ensureSize w1 range.sheet ((range.r2 : Int) + 1) ((range.c2 : Int) + 1)
      let sh := (jsMapGet w2.sheets range.sheet).getD ⟨range.sheet, []⟩
      match sfWriteRows sh.rows range.r1 range.c1 0 formulas with
      | (rows1, err) =>
          let w3 := { w2 with
            sheets := jsMapSet w2.sheets range.sheet { sh with rows := rows1 } }
          match err with
          | some e => (w3, some e)
          | none =>
              (appendEvent w3 "setFormulas"
                { range := some range, formulas := some formulas }
                ⟨"setCells", { range := some range, cells := some before }⟩
                ("setFormulas " ++ range.sheet ++ "!" ++
                  rcToA1 range.r1 range.c1), none)

/-- Update one in-bounds cell of a row grid. -/
def updateCellAt (rows : List (List Cell)) (r c : Nat) (f : Cell → Cell) :
    List (List Cell) :=
  rows.set r ((rows.getD r []).set c (f ((rows.getD r []).getD c emptyCell)))

/-- `SheetModel.formatRange` (the rectangle is in bounds after the snapshot
ensured the size, so the loop is total). -/
def formatRange (w : Workbook) (range : RangeRef) (format : Option String) :
    Workbook × Option String :=
  match snapshot w range with
  | (.error e, w1) => (w1, some e)
  | (.ok before, w1) =>
      let (w2, _) :=
        ensureSize w1 range.sheet ((range.r2 : Int) + 1) ((range.c2 : Int) + 1)
      let sh := (jsMapGet w2.sheets range.sheet).getD ⟨range.sheet, []⟩
      let rows1 := (rectPairs range.r1 range.r2 range.c1 range.c2).foldl
        (fun rows rc =>
          updateCellAt rows rc.1 rc.2 (fun prev => { prev with format := format }))
        sh.rows
      let w3 := { w2 with
        sheets := jsMapSet w2.sheets range.sheet { sh with rows := rows1 } }
      (appendEvent w3 "formatRange"
        { range := some range, format := some format }
        ⟨"setCells", { range := some range, cells := some before }⟩
        ("formatRange " ++ range.sheet ++ " " ++ format.getD "clear"), none)

/-- One cell step of `linkProvenance`: `if (!cell.provenance)
cell.provenance = []; cell.provenance.push(...prov)`.  An existing reference
is pushed to IN PLACE on the heap; a missing one first allocates a fresh
empty array. -/
def lpStep (prov : List CellProvenance)
    (st : List (List CellProvenance) × List (List Cell)) (rc : Nat × Nat) :
    List (List CellProvenance) × List (List Cell) :=
  let heap := st.1
  let rows := st.2
  let cell := (rows.getD rc.1 []).getD rc.2 emptyCell
  match cell.provenance with
  | some i => (heap.set i (heap.getD i [] ++ prov), rows)
  | none =>
      let ref := heap.length
      let heap1 := heap ++ [[]]
      (heap1.set ref (heap1.getD ref [] ++ prov),
       updateCellAt rows rc.1 rc.2 (fun prev => { prev with provenance := some ref }))

/-- `SheetModel.linkProvenance`. -/
def linkProvenance (w : Workbook) (range : RangeRef)
    (prov : List CellProvenance) : Workbook × Option String :=
  match snapshot w range with
  | (.error e, w1) => (w1, some e)
  | (.ok before, w1) =>
      let sh := (jsMapGet w1.sheets range.sheet).getD ⟨range.sheet, []⟩
      let st := (rectPairs range.r1 range.r2 range.c1 range.c2).foldl
        (lpStep prov) (w1.heap, sh.rows)
      let w2 := { w1 with
        sheets := jsMapSet w1.sheets range.sheet { sh with rows := st.2 },
        heap := st.1 }
      (appendEvent w2 "linkProvenance"
        { range := some range, prov := some prov }
        ⟨"setCells", { range := some range, cells := some before }⟩
        ("linkProvenance " ++ range.sheet), none)

/-! ### Dispatch, undo, construction -/

/-- `SheetModel.dispatch`: flat switch over the operation names.  A missing
required argument field (which would make the JS body dereference
`undefined`) is modelled as the thrown `"TypeError"`; no code path under
verification exercises it with the field missing. -/
def dispatch (w : Workbook) (op : String) (args : Args) (internal : Bool) :
    Workbook × Option String :=
  if op = "createSheet" then
    match args.name with
    | some name => createSheet w name
    | none => (w, some "TypeError")
  else if op = "deleteSheet" then
    match args.name with
    | some name => deleteSheet w name
    | none => (w, some "TypeError")
  else if op = "restoreSheet" then
    match args.sheet with
    | some s => restoreSheet w s
    | none => (w, some "TypeError")
  else if op = "setValues" then
    match args.range, args.values with
    | some range, some values => setValues w range values args.provenance
    | _, _ => (w, some "TypeError")
  else if op = "setFormulas" then
    match args.range, args.formulas with
    | some range, some formulas => setFormulas w range formulas
    | _, _ => (w, some "TypeError")
  else if op = "formatRange" then
    match args.range with
    | some range => formatRange w range (args.format.getD none)
    | none => (w, some "TypeError")
  else if op = "setCells" then
    match args.range, args.cells with
    | some range, some cells => setCells w range cells
    | _, _ => (w, some "TypeError")
  else if op = "linkProvenance" then
    match args.range with
    | some range =>
        linkProvenance w range
          ((args.prov.orElse (fun _ => args.provenance)).getD [])
    | none => (w, some "TypeError")
  else if op = "noop" then (w, none)
  else if internal then (w, none)
  else (w, some ("Unknown op " ++ op))

/-- `SheetModel.undo`: pop the most recent event, replay its inverse in
internal mode, return the popped event.  The replayed inverse itself appends
a new event (a `setCells` with a no-op inverse, or a structural op). -/
def undo (w : Workbook) : Workbook × Option String × Option SheetEvent :=
  match w.events.getLast? with
  | none => (w, none, none)
  | some ev =>
      let w1 := { w with events := w.events.dropLast }
      let (w2, err) := dispatch w1 ev.inverse.op ev.inverse.args true
      (w2, err, some ev)

/-- Repeated `undo()` (observable workbook state only). -/
def undoN : Nat → Workbook → Workbook
  | 0, w => w
  | k + 1, w => undoN k (undo w).1

/-- The `SheetModel` constructor: one clean sheet plus the initial
checkpoint. -/
def mkModel : Workbook :=
  checkpoint (createSheet ⟨[], [], [], []⟩ "Sheet1").1 "init"

/-- `SheetModel.getCell`: ensure the size, then read `rows[r][c]`.  A
negative row index makes the JS body dereference `undefined` (thrown
TypeError); a negative column reads `undefined` off a real row, which is
returned (`.ok none`). -/
def getCellOp (w : Workbook) (sheet : String) (r c : Int) :
    Except String (Option Cell) × Workbook :=
  match ensureSize w sheet (r + 1) (c + 1) with
  | (w1, some e) => (.error e, w1)
  | (w1, none) =>
      let sh := (jsMapGet w1.sheets sheet).getD ⟨sheet, []⟩
      if r < 0 then (.error "TypeError", w1)
      else
        match sh.rows[r.toNat]? with
        | none => (.error "TypeError", w1)
        | some row =>
            if c < 0 then (.ok none, w1)
            else (.ok row[c.toNat]?, w1)

/-- `SheetModel.getProvenance`: `cell.provenance ?? []` resolved through the
heap (reading `.provenance` off an `undefined` cell would throw). -/
def getProvenance (w : Workbook) (sheet : String) (a1 : String) :
    Except String (List CellProvenance) × Workbook :=
  match a1ToRc a1 with
  | .error e => (.error e, w)
  | .ok (r, c) =>
      match getCellOp w sheet r c with
      | (.error e, w1) => (.error e, w1)
      | (.ok none, w1) => (.error "TypeError", w1)
      | (.ok (some cell), w1) =>
          match cell.provenance with
          | none => (.ok [], w1)
          | some i => (.ok (w1.heap.getD i []), w1)

/-! ### Generic arithmetic expression evaluation

The source evaluates the substituted formula text with
`Function(expr)` — generic JS evaluation of a by-then fully numeric
arithmetic expression.  Following the specification of that step (operators
`+ - * / ( )` over numeric literals), it is modelled by a recursive-descent
parser-evaluator.  Division is modelled as truncated integer division (JS
division is on floats); no claim under verification involves division or
non-integer arithmetic. -/

/-- Skip JS whitespace. -/
def skipWs (cs : List Char) : List Char := cs.dropWhile isWsChar

/-- Parser mode: expression (additive), its continuation, term
(multiplicative), its continuation, or factor. -/
inductive PK where
  | pExpr
  | pExprRest (acc : Int)
  | pTerm
  | pTermRest (acc : Int)
  | pFactor
deriving DecidableEq

/-- JS division placeholder (see section comment). -/
def jsDiv (a b : Int) : Int := a.tdiv b

/-- Recursive-descent arithmetic evaluator (fueled). -/
def parseGo : Nat → PK → List Char → Option (Int × List Char)
  | 0, _, _ => none
  | fuel + 1, k, cs =>
      match k with
      | .pExpr =>
          match parseGo fuel .pTerm cs with
          | some (t, rest) => parseGo fuel (.pExprRest t) rest
          | none => none
      | .pExprRest acc =>
          match skipWs cs with
          | '+' :: rest =>
              match parseGo fuel .pTerm rest with
              | some (t, rest2) => parseGo fuel (.pExprRest (acc + t)) rest2
              | none => none
          | '-' :: rest =>
              match parseGo fuel .pTerm rest with
              | some (t, rest2) => parseGo fuel (.pExprRest (acc - t)) rest2
              | none => none
          | _ => some (acc, cs)
      | .pTerm =>
          match parseGo fuel .pFactor cs with
          | some (f, rest) => parseGo fuel (.pTermRest f) rest
          | none => none
      | .pTermRest acc =>
          match skipWs cs with
          | '*' :: rest =>
              match parseGo fuel .pFactor rest with
              | some (f, rest2) => parseGo fuel (.pTermRest (acc * f)) rest2
              | none => none
          | '/' :: rest =>
              match parseGo fuel .pFactor rest with
              | some (f, rest2) => parseGo fuel (.pTermRest (jsDiv acc f)) rest2
              | none => none
          | _ => some (acc, cs)
      | .pFactor =>
          match skipWs cs with
          | '(' :: rest =>
              match parseGo fuel .pExpr rest with
              | some (v, rest2) =>
                  match skipWs rest2 with
                  | ')' :: rest3 => some (v, rest3)
                  | _ => none
              | none => none
          | '-' :: rest =>
              match parseGo fuel .pFactor rest with
              | some (v, rest2) => some (-v, rest2)
              | none => none
          | '+' :: rest => parseGo fuel .pFactor rest
          | c :: rest =>
              if isAsciiDigit c then
                some ((natFromDigits ((c :: rest).takeWhile isAsciiDigit) : Int),
                      (c :: rest).dropWhile isAsciiDigit)
              else none
          | [] => none

/-- Evaluate a fully substituted arithmetic expression; `none` models a
thrown evaluation error.  The fuel bound dominates the recursion depth of
any expression of this length. -/
def jsEval (cs : List Char) : Option Int :=
  match parseGo (cs.length * 4 + 16) .pExpr cs with
  | some (v, rest) => if (skipWs rest).isEmpty then some v else none
  | none => none

/-! ### Formula evaluator (`evaluateCell` and its helper family) -/

/-- The evaluator state monad: workbook (the `this.wb` the helpers mutate
through `ensureSize`) and the shared mutable cycle-detection `Set` of keys.
An error carries the state at the throw. -/
def EvalM (α : Type) : Type :=
  Workbook → List String → (Except String α) × Workbook × List String

instance : Monad EvalM where
  pure a := fun w seen => (.ok a, w, seen)
  bind x f := fun w seen =>
    match x w seen with
    | (.error e, w1, s1) => (.error e, w1, s1)
    | (.ok a, w1, s1) => f a w1 s1

/-- Throw. -/
def EvalM.fail {α : Type} (msg : String) : EvalM α :=
  fun w seen => (.error msg, w, seen)

/-- `seen.has(key)`. -/
def EvalM.hasSeen (key : String) : EvalM Bool :=
  fun w seen => (.ok (seen.contains key), w, seen)

/-- `seen.add(key)` (mutates the shared set). -/
def EvalM.addSeen (key : String) : EvalM Unit :=
  fun w seen => (.ok (), w, key :: seen)

/-- `this.getCell(...)` inside the monad. -/
def EvalM.getCellM (sheet : String) (r c : Int) : EvalM (Option Cell) :=
  fun w seen =>
    match getCellOp w sheet r c with
    | (.error e, w1) => (.error e, w1, seen)
    | (.ok oc, w1) => (.ok oc, w1, seen)

/-- The cycle-detection key `` `${sheet}:${r}:${c}` ``. -/
def cellKey (sheet : String) (r c : Int) : String :=
  sheet ++ ":" ++ intToStr r ++ ":" ++ intToStr c

/-- Split on `','` (JS `String.split`, which never returns an empty list). -/
def splitCommas (cs : List Char) : List (List Char) :=
  match cs with
  | [] => [[]]
  | ',' :: rest => [] :: splitCommas rest
  | c :: rest =>
      match splitCommas rest with
      | h :: t => (c :: h) :: t
      | [] => [[c]]

/-- Split at the first `')'`: the segment before it and the rest after. -/
def splitAtCloseParen (cs : List Char) : Option (List Char × List Char) :=
  match cs with
  | [] => none
  | ')' :: rest => some ([], rest)
  | c :: rest =>
      match splitAtCloseParen rest with
      | some (a, b) => some (c :: a, b)
      | none => none

/-- Split at the first `':'`. -/
def splitAtColon (cs : List Char) : Option (List Char × List Char) :=
  match cs with
  | [] => none
  | c :: rest =>
      if c = ':' then some ([], rest)
      else
        match splitAtColon rest with
        | some (a, b) => some (c :: a, b)
        | none => none

/-- Attempt of the regex `SUM\(\s*([^)]+?)\s*\)` (case-insensitive) at the
START of the list: on success, the captured argument segment (whose
surrounding whitespace the `\s*` anchors strip, i.e. trimmed at use site)
and the text after the closing parenthesis. -/
def matchSumOpen (cs : List Char) : Option (List Char × List Char) :=
  match cs with
  | s :: u :: m :: p :: rest =>
      if (s = 'S' || s = 's') && (u = 'U' || u = 'u') && (m = 'M' || m = 'm')
          && p = '(' then
        match splitAtCloseParen rest with
        | some (seg, after) => if seg.isEmpty then none else some (seg, after)
        | none => none
      else none
  | _ => none

/-- Match of the regex `^([A-Z]+)([0-9]+):([A-Z]+)([0-9]+)$` (case
insensitive): the two corner reference strings. -/
def parseRangeSpec (cs : List Char) : Option (String × String) :=
  match splitAtColon cs with
  | none => none
  | some (l, r) =>
      if isA1Token l && isA1Token r then some (String.mk l, String.mk r)
      else none

/-- Call shapes of the mutually recursive evaluator family (`evaluateCell`,
`evalRef`, `sumTerm`, `sumArgs`, `sumRange` with its rectangle loop, and the
two regex-replacement scans of `evaluateCell`), folded into one fueled
function so that recursion is structural on the fuel. -/
inductive ECall where
  | cell (sheet : String) (r c : Int)
  | ref (sheet : String) (a1 : String)
  | term (sheet : String) (t : List Char)
  | argsSum (sheet : String) (ts : List (List Char))
  | rangeSum (sheet : String) (spec : String)
  | rangeLoop (sheet : String) (r c rhi clo chi : Int)
  | sums (sheet : String) (cs : List Char)
  | refs (sheet : String) (cs : List Char)

/-- Result of an `ECall`: a cell value, a number, or replaced text. -/
inductive EVal where
  | v (x : Val)
  | n (i : Int)
  | cs (l : List Char)
deriving DecidableEq, BEq

/-- Underlying value (cross-tag fallbacks are unreachable: each call shape
returns its own tag). -/
def EVal.asVal : EVal → Val
  | .v x => x
  | .n i => .num i
  | .cs l => .str (String.mk l)

/-- Underlying number. -/
def EVal.asInt : EVal → Int
  | .n i => i
  | .v (.num i) => i
  | _ => 0

/-- Underlying text. -/
def EVal.asChars : EVal → List Char
  | .cs l => l
  | _ => []

/-- The evaluator.  Each case is a line-by-line translation of the
corresponding sheet.ts method; every recursive call decrements the fuel. -/
def evalGo : Nat → ECall → EvalM EVal
  | 0, _ => EvalM.fail "model: out of fuel"
  | fuel + 1, call =>
      match call with
      | .cell sheet r c => do
          let key := cellKey sheet r c
          let hit ← EvalM.hasSeen key
          if hit then pure (.v (.str "#REF!"))
          else do
            EvalM.addSeen key
            let oc ← EvalM.getCellM sheet r c
            match oc with
            | none => EvalM.fail "TypeError"
            | some cell =>
                match cell.formula with
                | none => pure (.v cell.value)
                | some f0 =>
                    if f0 = "" then pure (.v cell.value)
                    else
                      match trimChars f0.data with
                      | [] => pure (.v cell.value)
                      | c0 :: expr =>
                          if c0 = '=' then do
                            let e1 ← evalGo fuel (.sums sheet expr)
                            let e2 ← evalGo fuel (.refs sheet e1.asChars)
                            match jsEval e2.asChars with
                            | some n => pure (.v (.num n))
                            | none => pure (.v (.str "#ERROR!"))
                          else pure (.v cell.value)
      | .ref sheet a1 =>
          match a1ToRc a1 with
          | .error e => EvalM.fail e
          | .ok (r, c) => do
              let ev ← evalGo fuel (.cell sheet r c)
              match ev.asVal with
              | .num n => pure (.n n)
              | .null => pure (.n 0)
              | .str s => pure (.n ((jsNumberChars s.data).getD 0))
      | .term sheet t =>
          let tt := trimChars t
          if (parseRangeSpec tt).isSome then
            evalGo fuel (.rangeSum sheet (String.mk tt))
          else if isA1Token tt then
            evalGo fuel (.ref sheet (String.mk tt))
          else
            match jsNumberChars (tt.filter (fun c => c ≠ ',')) with
            | some n => pure (.n n)
            | none => pure (.n 0)
      | .argsSum sheet ts =>
          match ts with
          | [] => pure (.n 0)
          | t :: rest => do
              let x ← evalGo fuel (.term sheet t)
              let r ← evalGo fuel (.argsSum sheet rest)
              pure (.n (x.asInt + r.asInt))
      | .rangeSum sheet spec =>
          match parseRangeSpec spec.data with
          | none => pure (.n 0)
          | some (s1, s2) =>
              match a1ToRc s1, a1ToRc s2 with
              | .ok a, .ok b =>
                  evalGo fuel (.rangeLoop sheet (min a.1 b.1) (min a.2 b.2)
                    (max a.1 b.1) (min a.2 b.2) (max a.2 b.2))
              | .error e, _ => EvalM.fail e
              | _, .error e => EvalM.fail e
      | .rangeLoop sheet r c rhi clo chi =>
          if rhi < r then pure (.n 0)
          else if chi < c then
            evalGo fuel (.rangeLoop sheet (r + 1) clo rhi clo chi)
          else do
            let ev ← evalGo fuel (.cell sheet r c)
            let contrib :=
              match ev.asVal with
              | .num n => n
              | .null => 0
              | .str s => (jsNumberChars s.data).getD 0
            let rest ← evalGo fuel (.rangeLoop sheet r (c + 1) rhi clo chi)
            pure (.n (contrib + rest.asInt))
      | .sums sheet cs =>
          match cs with
          | [] => pure (.cs [])
          | c0 :: rest =>
              match matchSumOpen (c0 :: rest) with
              | some (seg, after) => do
                  let s ← evalGo fuel (.argsSum sheet (splitCommas (trimChars seg)))
                  let restOut ← evalGo fuel (.sums sheet after)
                  pure (.cs (intChars s.asInt ++ restOut.asChars))
              | none => do
                  let restOut ← evalGo fuel (.sums sheet rest)
                  pure (.cs (c0 :: restOut.asChars))
      | .refs sheet cs =>
          match cs with
          | [] => pure (.cs [])
          | c0 :: rest =>
              if isWordChar c0 then
                let run := (c0 :: rest).takeWhile isWordChar
                let rest2 := (c0 :: rest).dropWhile isWordChar
                if isA1Token run then do
                  let nv ← evalGo fuel (.ref sheet (String.mk run))
                  let restOut ← evalGo fuel (.refs sheet rest2)
                  pure (.cs (intChars nv.asInt ++ restOut.asChars))
                else do
                  let restOut ← evalGo fuel (.refs sheet rest2)
                  pure (.cs (run ++ restOut.asChars))
              else do
                let restOut ← evalGo fuel (.refs sheet rest)
                pure (.cs (c0 :: restOut.asChars))

/-- `SheetModel.evaluateCell` (fueled; the default `seen = new Set()` is the
empty list). -/
def evaluateCell (fuel : Nat) (w : Workbook) (sheet : String) (r c : Int)
    (seen : List String) : Except String Val × Workbook × List String :=
  match evalGo fuel (.cell sheet r c) w seen with
  | (.ok ev, w1, s1) => (.ok ev.asVal, w1, s1)
  | (.error e, w1, s1) => (.error e, w1, s1)

/-- `SheetModel.sumRange` (fueled wrapper). -/
def sumRange (fuel : Nat) (w : Workbook) (sheet : String) (spec : String)
    (seen : List String) : Except String EVal × Workbook × List String :=
  evalGo fuel (.rangeSum sheet spec) w seen

/-- The two nested loops of `evaluateAll` over one sheet; both bounds are
re-read on every iteration because evaluation can grow the sheet. -/
def evalSheetLoop : Nat → Workbook → String → Nat → Nat → Option String × Workbook
  | 0, w, _, _, _ => (some "model: out of fuel", w)
  | fuel + 1, w, name, r, c =>
      let sh := (jsMapGet w.sheets name).getD ⟨name, []⟩
      if r < sh.rows.length then
        if c < (sh.rows.getD r []).length then
          match evalGo fuel (.cell name (r : Int) (c : Int)) w [] with
          | (.error e, w1, _) => (some e, w1)
          | (.ok _, w1, _) => evalSheetLoop fuel w1 name r (c + 1)
        else evalSheetLoop fuel w name (r + 1) 0
      else (none, w)

/-- Sheet loop of `evaluateAll` (the sheet set never changes during
evaluation, so the iterator is the initial name list). -/
def evaluateAllGo (fuel : Nat) : Workbook → List String → Option String × Workbook :=
  fun w names =>
    match names with
    | [] => (none, w)
    | nm :: rest =>
        match evalSheetLoop fuel w nm 0 0 with
        | (some e, w1) => (some e, w1)
        | (none, w1) => evaluateAllGo fuel w1 rest

/-- `SheetModel.evaluateAll` (fueled). -/
def evaluateAll (fuel : Nat) (w : Workbook) : Option String × Workbook :=
  evaluateAllGo fuel w (w.sheets.map Prod.fst)

/-! ### Plan executor (`agent.ts` `executePlan`) -/

/-- The defensive `JSON.parse(JSON.stringify(step.args))` clone together
with the legacy `r3`→`r2` / `c3`→`c2` range-field renaming.  The clone is
the identity on the representable values, and the renaming only affects
argument shapes (a range carrying `r3`/`c3` instead of `r2`/`c2`) that the
`Args` embedding, which represents well-formed ranges only, does not
distinguish; it is therefore the identity here. -/
def sanitizeArgs (args : Args) : Args := args

/-- The step loop of `executePlan`: dispatch each step in order; on success
record it verbatim, on failure annotate it with `FAILED: ...` and stop. -/
def execLoop : List PlanStep → Workbook → List PlanStep × Workbook
  | [], w => ([], w)
  | step :: rest, w =>
      match dispatch w step.op (sanitizeArgs step.args) false with
      | (w1, none) =>
          let (ex, w2) := execLoop rest w1
          (step :: ex, w2)
      | (w1, some msg) =>
          ([{ step with explain := some ("FAILED: " ++ msg) }], w1)

/-- `executePlan`: run the loop, then `evaluateAll()` and the `"agent"`
checkpoint.  A throw out of `evaluateAll` propagates (the checkpoint is not
reached and the executed list is not returned). -/
def executePlan (fuel : Nat) (plan : Plan) (w : Workbook) :
    Workbook × Except String (List PlanStep) :=
  let (executed, w1) := execLoop plan.steps w
  match evaluateAll fuel w1 with
  | (none, w2) => (checkpoint w2 "agent", .ok executed)
  | (some e, w2) => (w2, .error e)

/-! ### Lemmas: decimal and bijective base-26 roundtrips (for C8) -/

theorem digitVal_ofNat {n : Nat} (h : n < 10) :
    digitVal (Char.ofNat (48 + n)) = n := by
  interval_cases n <;> decide

theorem isAsciiDigit_ofNat {n : Nat} (h : n < 10) :
    isAsciiDigit (Char.ofNat (48 + n)) = true := by
  interval_cases n <;> decide

theorem natFromDigits_append (xs : List Char) (c : Char) :
    natFromDigits (xs ++ [c]) = natFromDigits xs * 10 + digitVal c := by
  simp [natFromDigits]

theorem natCharsAux_succ (fuel n : Nat) :
    natCharsAux (fuel + 1) n =
      if n < 10 then [Char.ofNat (48 + n)]
      else natCharsAux fuel (n / 10) ++ [Char.ofNat (48 + n % 10)] := rfl

theorem natCharsAux_roundtrip :
    ∀ fuel n, n ≤ fuel → natFromDigits (natCharsAux (fuel + 1) n) = n := by
  intro fuel
  induction fuel with
  | zero =>
      intro n hn
      have h0 : n = 0 := Nat.le_zero.mp hn
      subst h0
      decide
  | succ fuel ih =>
      intro n hn
      rw [natCharsAux_succ]
      by_cases h10 : n < 10
      · rw [if_pos h10]
        simpa [natFromDigits] using digitVal_ofNat h10
      · have hdiv : n / 10 ≤ fuel := by
          have h1 : n / 10 < n := Nat.div_lt_self (by omega) (by omega)
          omega
        rw [if_neg h10, natFromDigits_append, ih (n / 10) hdiv,
          digitVal_ofNat (Nat.mod_lt n (by omega))]
        omega

theorem natChars_roundtrip (n : Nat) : natFromDigits (natChars n) = n :=
  natCharsAux_roundtrip n n (Nat.le_refl n)

theorem natCharsAux_digits :
    ∀ fuel n, n ≤ fuel →
      (natCharsAux (fuel + 1) n).all isAsciiDigit = true ∧
      natCharsAux (fuel + 1) n ≠ [] := by
  intro fuel
  induction fuel with
  | zero =>
      intro n hn
      have h0 : n = 0 := Nat.le_zero.mp hn
      subst h0
      decide
  | succ fuel ih =>
      intro n hn
      rw [natCharsAux_succ]
      by_cases h10 : n < 10
      · rw [if_pos h10]
        exact ⟨by simpa using isAsciiDigit_ofNat h10, by simp⟩
      · have hdiv : n / 10 ≤ fuel := by
          have h1 : n / 10 < n := Nat.div_lt_self (by omega) (by omega)
          omega
        rw [if_neg h10]
        obtain ⟨hall, _⟩ := ih (n / 10) hdiv
        constructor
        · simp only [List.all_append, hall, Bool.true_and, List.all_cons,
            List.all_nil, Bool.and_true]
          exact isAsciiDigit_ofNat (Nat.mod_lt n (by omega))
        · simp

theorem natChars_digits (n : Nat) : (natChars n).all isAsciiDigit = true :=
  (natCharsAux_digits n n (Nat.le_refl n)).1

theorem natChars_ne_nil (n : Nat) : natChars n ≠ [] :=
  (natCharsAux_digits n n (Nat.le_refl n)).2

theorem colCharVal_ofNat {r : Nat} (h : r < 26) :
    colCharVal (Char.ofNat (65 + r)) = r + 1 := by
  interval_cases r <;> decide

theorem isAsciiLetter_ofNat {r : Nat} (h : r < 26) :
    isAsciiLetter (Char.ofNat (65 + r)) = true := by
  interval_cases r <;> decide

/-- The bijective base-26 decode used by `a1ToRc`. -/
def colDecode (cs : List Char) : Nat :=
  cs.foldl (fun acc c => acc * 26 + colCharVal c) 0

theorem colDecode_append (xs : List Char) (c : Char) :
    colDecode (xs ++ [c]) = colDecode xs * 26 + colCharVal c := by
  simp [colDecode]

theorem colLettersAux_succ (fuel n : Nat) :
    colLettersAux (fuel + 1) n =
      if n = 0 then []
      else colLettersAux fuel ((n - 1) / 26) ++ [Char.ofNat (65 + (n - 1) % 26)] := rfl

theorem colLettersAux_roundtrip :
    ∀ fuel n, n ≤ fuel → colDecode (colLettersAux fuel n) = n := by
  intro fuel
  induction fuel with
  | zero =>
      intro n hn
      have h0 : n = 0 := Nat.le_zero.mp hn
      subst h0
      decide
  | succ fuel ih =>
      intro n hn
      rw [colLettersAux_succ]
      by_cases h0 : n = 0
      · subst h0; simp [colDecode]
      · have hrec : (n - 1) / 26 ≤ fuel := by
          have h1 : (n - 1) / 26 ≤ n - 1 := Nat.div_le_self _ _
          omega
        rw [if_neg h0, colDecode_append, ih _ hrec,
          colCharVal_ofNat (Nat.mod_lt (n - 1) (by omega))]
        omega

theorem colLetters_roundtrip (n : Nat) : colDecode (colLetters n) = n :=
  colLettersAux_roundtrip (n + 1) n (Nat.le_succ n)

theorem colLettersAux_letters :
    ∀ fuel n, (colLettersAux fuel n).all isAsciiLetter = true := by
  intro fuel
  induction fuel with
  | zero => intro n; simp [colLettersAux]
  | succ fuel ih =>
      intro n
      rw [colLettersAux_succ]
      by_cases h0 : n = 0
      · rw [if_pos h0]; simp
      · rw [if_neg h0]
        simp only [List.all_append, ih, Bool.true_and, List.all_cons,
          List.all_nil, Bool.and_true]
        exact isAsciiLetter_ofNat (Nat.mod_lt (n - 1) (by omega))

theorem colLetters_ne_nil {n : Nat} (h : 0 < n) : colLetters n ≠ [] := by
  unfold colLetters
  rw [colLettersAux_succ, if_neg (by omega)]
  simp

theorem isAsciiDigit_not_letter {c : Char} (h : isAsciiDigit c = true) :
    isAsciiLetter c = false := by
  cases hlt : isAsciiLetter c with
  | false => rfl
  | true =>
      exfalso
      simp only [isAsciiDigit, Bool.and_eq_true, decide_eq_true_eq] at h
      simp only [isAsciiLetter, Bool.or_eq_true, Bool.and_eq_true,
        decide_eq_true_eq] at hlt
      omega

theorem takeWhile_append_all {p : Char → Bool} {l : List Char} (d : List Char)
    (h : l.all p = true) : (l ++ d).takeWhile p = l ++ d.takeWhile p := by
  induction l with
  | nil => simp
  | cons a t ih =>
      simp only [List.all_cons, Bool.and_eq_true] at h
      simp [List.takeWhile_cons, h.1, ih h.2]

theorem dropWhile_append_all {p : Char → Bool} {l : List Char} (d : List Char)
    (h : l.all p = true) : (l ++ d).dropWhile p = d.dropWhile p := by
  induction l with
  | nil => simp
  | cons a t ih =>
      simp only [List.all_cons, Bool.and_eq_true] at h
      simp [List.dropWhile_cons, h.1, ih h.2]

theorem takeWhile_not_head {p : Char → Bool} {d : List Char}
    (h : ∀ c ∈ d, p c = false) : d.takeWhile p = [] := by
  cases d with
  | nil => rfl
  | cons a t => simp [List.takeWhile_cons, h a (by simp)]

theorem dropWhile_not_head {p : Char → Bool} {d : List Char}
    (h : ∀ c ∈ d, p c = false) : d.dropWhile p = d := by
  cases d with
  | nil => rfl
  | cons a t => simp [List.dropWhile_cons, h a (by simp)]

/-- `a1Split` recovers the two groups of a well-formed letters-digits
concatenation. -/
theorem a1Split_groups {letters digits : List Char}
    (hl : letters.all isAsciiLetter = true) (hln : letters ≠ [])
    (hd : digits.all isAsciiDigit = true) (hdn : digits ≠ []) :
    a1Split (letters ++ digits) = some (letters, digits) := by
  have hnotl : ∀ c ∈ digits, isAsciiLetter c = false := by
    intro c hc
    exact isAsciiDigit_not_letter (List.all_eq_true.mp hd c hc)
  unfold a1Split
  rw [takeWhile_append_all digits hl, dropWhile_append_all digits hl,
    takeWhile_not_head hnotl, dropWhile_not_head hnotl]
  simp only [List.append_nil]
  rw [if_pos]
  obtain ⟨la, ltl, rfl⟩ := List.exists_cons_of_ne_nil hln
  obtain ⟨da, dtl, rfl⟩ := List.exists_cons_of_ne_nil hdn
  simp [hd]

/-- C8: `rcToA1(0,0) = "A1"`, `rcToA1(0,26) = "AA1"`, and `a1ToRc` is the
exact left inverse of `rcToA1` for every row and column index. -/
theorem c8_rcToA1_a1ToRc_roundtrip :
    rcToA1 0 0 = "A1" ∧ rcToA1 0 26 = "AA1" ∧
    ∀ r c : Nat, a1ToRc (rcToA1 r c) = .ok ((r : Int), (c : Int)) := by
  refine ⟨by decide, by decide, ?_⟩
  intro r c
  unfold rcToA1 a1ToRc
  have hdata : (String.mk (colLetters (c + 1) ++ natChars (r + 1))).data
      = colLetters (c + 1) ++ natChars (r + 1) := rfl
  have hsplit : a1Split (colLetters (c + 1) ++ natChars (r + 1))
      = some (colLetters (c + 1), natChars (r + 1)) :=
    a1Split_groups (colLettersAux_letters _ _) (colLetters_ne_nil (by omega))
      (natChars_digits _) (natChars_ne_nil _)
  rw [hdata, hsplit]
  have hrow : natFromDigits (natChars (r + 1)) = r + 1 := natChars_roundtrip _
  have hcol : (colLetters (c + 1)).foldl
      (fun acc ch => acc * 26 + colCharVal ch) 0 = c + 1 :=
    colLetters_roundtrip (c + 1)
  simp only [hrow, hcol, Except.ok.injEq, Prod.mk.injEq]
  constructor <;> push_cast <;> ring

/-! ### C9: structural errors are atomic -/

/-- The operation names enumerated by the `dispatch` switch. -/
def knownOps : List String :=
  ["createSheet", "deleteSheet", "restoreSheet", "setValues", "setFormulas",
   "formatRange", "setCells", "linkProvenance", "noop"]

/-- C9: a `createSheet` with an existing name, a `deleteSheet` with an absent
name, and a dispatch of an unknown operation in non-internal mode each
return the thrown error to the caller with the workbook (sheets,
checkpoints, events, heap) completely unchanged. -/
theorem c9_structural_errors_atomic :
    (∀ (w : Workbook) (name : String) (args : Args), args.name = some name →
      jsMapHas w.sheets name = true →
      dispatch w "createSheet" args false = (w, some "Sheet exists")) ∧
    (∀ (w : Workbook) (name : String) (args : Args), args.name = some name →
      jsMapGet w.sheets name = none →
      dispatch w "deleteSheet" args false
        = (w, some ("Sheet not found: " ++ name))) ∧
    (∀ (w : Workbook) (op : String) (args : Args),
      op ∉ knownOps →
      dispatch w op args false = (w, some ("Unknown op " ++ op))) := by
  refine ⟨?_, ?_, ?_⟩
  · intro w name args hname hmem
    simp [dispatch, hname, createSheet, hmem]
  · intro w name args hname habs
    simp [dispatch, hname, deleteSheet, habs]
  · intro w op args hop
    have hne : ∀ s, s ∈ knownOps → ¬(op = s) := fun s hs he => hop (he ▸ hs)
    simp only [dispatch,
      if_neg (hne "createSheet" (by decide)), if_neg (hne "deleteSheet" (by decide)),
      if_neg (hne "restoreSheet" (by decide)), if_neg (hne "setValues" (by decide)),
      if_neg (hne "setFormulas" (by decide)), if_neg (hne "formatRange" (by decide)),
      if_neg (hne "setCells" (by decide)), if_neg (hne "linkProvenance" (by decide)),
      if_neg (hne "noop" (by decide))]
    simp

/-- Witness for C9 at concrete inputs: the fresh model already has `Sheet1`,
has no sheet `Nope`, and `frobnicate` is not an operation. -/
theorem c9_witness :
    dispatch mkModel "createSheet" { name := some "Sheet1" } false
        = (mkModel, some "Sheet exists") ∧
    dispatch mkModel "deleteSheet" { name := some "Nope" } false
        = (mkModel, some "Sheet not found: Nope") ∧
    dispatch mkModel "frobnicate" {} false
        = (mkModel, some "Unknown op frobnicate") :=
  ⟨c9_structural_errors_atomic.1 mkModel "Sheet1" _ rfl (by decide),
   c9_structural_errors_atomic.2.1 mkModel "Nope" _ rfl (by decide),
   c9_structural_errors_atomic.2.2 mkModel "frobnicate" _ (by decide)⟩

/-! ### C10: SUM range corners commute -/

theorem strMk_data (s : String) : String.mk s.data = s := rfl

theorem isA1Token_chars {cs : List Char} (h : isA1Token cs = true) :
    ∀ c ∈ cs, isAsciiLetter c = true ∨ isAsciiDigit c = true := by
  unfold isA1Token a1Split at h
  by_cases hc : (!(cs.takeWhile isAsciiLetter).isEmpty &&
      (!(cs.dropWhile isAsciiLetter).isEmpty &&
        (cs.dropWhile isAsciiLetter).all isAsciiDigit)) = true
  case neg =>
    rw [if_neg (by simpa using hc)] at h
    simp at h
  case pos =>
    simp only [Bool.and_eq_true] at hc
    intro c hmem
    rw [← List.takeWhile_append_dropWhile (p := isAsciiLetter) (l := cs)] at hmem
    rcases List.mem_append.mp hmem with hin | hin
    · exact Or.inl (List.mem_takeWhile_imp hin)
    · exact Or.inr (List.all_eq_true.mp hc.2.2 c hin)

theorem isA1Token_no_colon {cs : List Char} (h : isA1Token cs = true) :
    ∀ c ∈ cs, ¬(c = ':') := by
  intro c hmem he
  subst he
  rcases isA1Token_chars h _ hmem with hl | hd
  · exact absurd hl (by decide)
  · exact absurd hd (by decide)

theorem splitAtColon_append {X : List Char} (Y : List Char)
    (h : ∀ c ∈ X, ¬(c = ':')) :
    splitAtColon (X ++ ':' :: Y) = some (X, Y) := by
  induction X with
  | nil => simp [splitAtColon]
  | cons c t ih =>
      simp only [List.cons_append, splitAtColon, if_neg (h c (by simp)),
        List.append_eq, ih (fun x hx => h x (by simp [hx]))]

theorem parseRangeSpec_append {X Y : String} (hX : isA1Token X.data = true)
    (hY : isA1Token Y.data = true) :
    parseRangeSpec (X ++ ":" ++ Y).data = some (X, Y) := by
  have hdata : (X ++ ":" ++ Y).data = X.data ++ ':' :: Y.data := by
    simp [String.data_append]
  unfold parseRangeSpec
  rw [hdata, splitAtColon_append Y.data (isA1Token_no_colon hX)]
  simp [hX, hY, strMk_data]

theorem isA1Token_a1ToRc_ok {cs : List Char} (h : isA1Token cs = true) :
    ∃ r c : Int, a1ToRc (String.mk cs) = .ok (r, c) := by
  unfold isA1Token at h
  rcases ho : a1Split cs with _ | p
  · rw [ho] at h; simp at h
  · unfold a1ToRc
    rw [show (String.mk cs).data = cs from rfl, ho]
    exact ⟨_, _, rfl⟩

/-- C10: inside a formula, the two corner references of a SUM range need not
be ordered — `sumRange` on `X:Y` computes exactly what it computes on `Y:X`
(same value, same state, same cycle set), because the rectangle is
normalised with min/max on rows and columns before iterating. -/
theorem c10_sumRange_corner_symmetric :
    ∀ (fuel : Nat) (w : Workbook) (sheet X Y : String) (seen : List String),
      isA1Token X.data = true → isA1Token Y.data = true →
      sumRange fuel w sheet (X ++ ":" ++ Y) seen
        = sumRange fuel w sheet (Y ++ ":" ++ X) seen := by
  intro fuel w sheet X Y seen hX hY
  cases fuel with
  | zero => rfl
  | succ fuel =>
      unfold sumRange
      obtain ⟨ra, ca, ha⟩ := isA1Token_a1ToRc_ok hX
      obtain ⟨rb, cb, hb⟩ := isA1Token_a1ToRc_ok hY
      rw [strMk_data] at ha hb
      show evalGo (fuel + 1) (.rangeSum sheet (X ++ ":" ++ Y)) w seen
        = evalGo (fuel + 1) (.rangeSum sheet (Y ++ ":" ++ X)) w seen
      simp only [evalGo, parseRangeSpec_append hX hY, parseRangeSpec_append hY hX,
        ha, hb]
      rw [min_comm ra rb, min_comm ca cb, max_comm ra rb, max_comm ca cb]

/-- Witness for C10: concrete corners `A1` and `B2` on a fresh model. -/
theorem c10_witness :
    sumRange 40 mkModel "Sheet1" ("A1" ++ ":" ++ "B2") []
      = sumRange 40 mkModel "Sheet1" ("B2" ++ ":" ++ "A1") [] :=
  c10_sumRange_corner_symmetric 40 mkModel "Sheet1" "A1" "B2" []
    (by decide) (by decide)

/-! ### C2: self-referencing formula -/

/-- Applying `(x >>= f)` to a state (definitional unfolding of the `EvalM`
bind). -/
theorem bind_apply {α β : Type} (x : EvalM α) (f : α → EvalM β)
    (w : Workbook) (seen : List String) :
    (x >>= f) w seen =
      match x w seen with
      | (.error e, w1, s1) => (.error e, w1, s1)
      | (.ok a, w1, s1) => f a w1 s1 := rfl

/-- Applying `pure` to a state. -/
theorem pure_apply {α : Type} (a : α) (w : Workbook) (seen : List String) :
    (pure a : EvalM α) w seen = (.ok a, w, seen) := rfl

/-- A fresh workbook whose A1 holds the self-referencing formula `=A1+1`
(the spec scenario for the cycle property), built through the operation
set. -/
def wbSelfRef : Workbook :=
  (setFormulas mkModel { sheet := "Sheet1", r1 := 0, c1 := 0, r2 := 0, c2 := 0 }
    [[some "=A1+1"]]).1

/-- The same workbook as an explicit literal (proved equal below), used to
keep kernel evaluation of the evaluator tractable. -/
def wbSelfRefLit : Workbook :=
  Workbook.mk
    [("Sheet1", Sheet.mk "Sheet1" [[{ formula := some "=A1+1" }]])]
    [Checkpoint.mk "init" 1]
    [SheetEvent.mk "createSheet" { name := some "Sheet1" }
       (InverseSpec.mk "deleteSheet" { name := some "Sheet1" }) "create Sheet1",
     SheetEvent.mk "setFormulas"
       { range := some ⟨"Sheet1", 0, 0, 0, 0⟩, formulas := some [[some "=A1+1"]] }
       (InverseSpec.mk "setCells"
         { range := some ⟨"Sheet1", 0, 0, 0, 0⟩, cells := some [[emptyCell]] })
       "setFormulas Sheet1!A1"]
    []

theorem wbSelfRef_eq : wbSelfRef = wbSelfRefLit := by decide

/-- C2 counterexample: evaluating the self-referencing cell terminates but
returns the NUMBER 1, not the error value `#REF!` — the recursive call does
return `#REF!`, but `evalRef` coerces that non-numeric value to 0, so
`=A1+1` evaluates to `0 + 1 = 1`. -/
theorem c2_counterexample :
    (evaluateCell 50 wbSelfRef "Sheet1" 0 0 []).1 = .ok (.num 1) ∧
    decide ((evaluateCell 50 wbSelfRef "Sheet1" 0 0 []).1
      = .ok (.str "#REF!")) = false := by
  rw [wbSelfRef_eq]
  exact ⟨by decide, by decide⟩

/-- C2 amended: evaluateCell on a self-referencing `=A1+1` cell terminates
(a finite fuel suffices) with the number 1; the cycle IS detected — any
evaluation of a cell whose key is already in the visited set returns
`#REF!` immediately and without touching the state — but that `#REF!`
coerces to 0 at the reference substitution site. -/
theorem c2_amended :
    (evaluateCell 50 wbSelfRef "Sheet1" 0 0 []).1 = .ok (.num 1) ∧
    (∀ (fuel : Nat) (w : Workbook) (sheet : String) (r c : Int)
       (seen : List String), seen.contains (cellKey sheet r c) = true →
       evaluateCell (fuel + 1) w sheet r c seen = (.ok (.str "#REF!"), w, seen)) := by
  constructor
  · rw [wbSelfRef_eq]; decide
  · intro fuel w sheet r c seen h
    unfold evaluateCell
    simp only [evalGo, bind_apply, EvalM.hasSeen, h, if_pos, pure_apply,
      EVal.asVal]

/-- Witness for C2 (discharging the visited-set hypothesis at a concrete
input). -/
theorem c2_witness :
    evaluateCell 1 mkModel "Sheet1" 0 0 ["Sheet1:0:0"]
      = (.ok (.str "#REF!"), mkModel, ["Sheet1:0:0"]) :=
  c2_amended.2 0 mkModel "Sheet1" 0 0 ["Sheet1:0:0"] (by decide)

/-! ### C7: SUM coercion over {1, "x", null} -/

/-- Workbook with `A1 = 1`, `A2 = "x"`, `A3` absent, and `B1 = =SUM(A1:A3)`,
built through the operation set. -/
def wbSum : Workbook :=
  (setFormulas
    (setValues mkModel { sheet := "Sheet1", r1 := 0, c1 := 0, r2 := 1, c2 := 0 }
      [[.num 1], [.str "x"]] none).1
    { sheet := "Sheet1", r1 := 0, c1 := 1, r2 := 0, c2 := 1 }
    [[some "=SUM(A1:A3)"]]).1

/-- The cell grid of `wbSum` as a literal. -/
def wbSumCells : List (List Cell) :=
  [[{ value := Val.num 1 }, { formula := some "=SUM(A1:A3)" }],
   [{ value := Val.str "x" }, emptyCell]]

/-- `wbSum` with its history replaced by nothing (cells are all that matter
to the evaluator; proved equal in grid to `wbSum` below). -/
def wbSumLit : Workbook :=
  Workbook.mk [("Sheet1", Sheet.mk "Sheet1" wbSumCells)]
    wbSum.checkpoints wbSum.events []

theorem wbSum_eq : wbSum = wbSumLit := by decide

/-- C7: with A1 = 1, A2 = "x", A3 absent, the formula `=SUM(A1:A3)` in B1
evaluates to the number 1 — the non-numeric string and the absent cell both
contribute 0 inside the SUM. -/
theorem c7_sum_coercion :
    (cellView wbSum "Sheet1" 0 0).value = .num 1 ∧
    (cellView wbSum "Sheet1" 1 0).value = .str "x" ∧
    lookupCell wbSum "Sheet1" 2 0 = none ∧
    (cellView wbSum "Sheet1" 0 1).formula = some "=SUM(A1:A3)" ∧
    (evaluateCell 60 wbSum "Sheet1" 0 1 []).1 = .ok (.num 1) := by
  rw [wbSum_eq]
  refine ⟨by decide, by decide, by decide, by decide, by decide⟩

/-! ### C3: plan execution halts on failure; post-loop recompute/checkpoint -/

/-- Run a prefix of steps, `some` final state iff every dispatch succeeded. -/
def execLoopOk : List PlanStep → Workbook → Option Workbook
  | [], w => some w
  | step :: rest, w =>
      match dispatch w step.op (sanitizeArgs step.args) false with
      | (w1, none) => execLoopOk rest w1
      | (_, some _) => none

/-- First step of the C3 counterexample plan: store the formula `=A0` in B1
(this dispatch succeeds). -/
def c3Step1 : PlanStep :=
  { op := "setFormulas",
    args := { range := some ⟨"Sheet1", 0, 1, 0, 1⟩,
              formulas := some [[some "=A0"]] } }

/-- Second step: recreate the existing `Sheet1` (this dispatch fails). -/
def c3Step2 : PlanStep := { op := "createSheet", args := { name := some "Sheet1" } }

/-- The C3 counterexample plan. -/
def c3Plan : Plan := { steps := [c3Step1, c3Step2] }

/-- C3 counterexample: in the spec scenario (a step whose dispatch fails)
the loop does halt and annotate — but the post-loop `evaluateAll()` can
itself throw (here: the previously stored formula `=A0` dereferences row
-1), in which case the `"agent"` checkpoint is NOT taken and `executePlan`
propagates the exception, contradicting the claimed unconditional
checkpoint. -/
theorem c3_counterexample :
    (execLoop c3Plan.steps mkModel).1 =
      [c3Step1, { c3Step2 with explain := some "FAILED: Sheet exists" }] ∧
    (executePlan 60 c3Plan mkModel).1.checkpoints = [Checkpoint.mk "init" 1] ∧
    (executePlan 60 c3Plan mkModel).2 = .error "TypeError" := by
  refine ⟨by decide, by decide, by decide⟩

/-- C3 amended: (1) when every step of a prefix dispatches successfully and
the next step's dispatch fails, the loop returns exactly the prefix (its
effects on the state preserved) followed by the failed step annotated with
`FAILED: message`, and the remaining steps are never applied; (2) after the
loop — however it ended — `evaluateAll()` is invoked, and provided it does
not throw, its result is checkpointed under the name `"agent"` and the
executed list is returned. -/
theorem c3_amended :
    (∀ (pre : List PlanStep) (step : PlanStep) (post : List PlanStep)
       (w w1 w2 : Workbook) (msg : String),
       execLoopOk pre w = some w1 →
       dispatch w1 step.op (sanitizeArgs step.args) false = (w2, some msg) →
       execLoop (pre ++ step :: post) w
         = (pre ++ [{ step with explain := some ("FAILED: " ++ msg) }], w2)) ∧
    (∀ (fuel : Nat) (plan : Plan) (w : Workbook),
       (evaluateAll fuel (execLoop plan.steps w).2).1 = none →
       executePlan fuel plan w
         = (checkpoint (evaluateAll fuel (execLoop plan.steps w).2).2 "agent",
            .ok (execLoop plan.steps w).1)) := by
  constructor
  · intro pre step post
    induction pre with
    | nil =>
        intro w w1 w2 msg hok hfail
        simp only [execLoopOk] at hok
        cases hok
        simp only [List.nil_append, execLoop, hfail]
    | cons p t ih =>
        intro w w1 w2 msg hok hfail
        simp only [execLoopOk] at hok
        rcases hd : dispatch w p.op (sanitizeArgs p.args) false with ⟨wp, err⟩
        rw [hd] at hok
        cases err with
        | some e => simp at hok
        | none =>
            simp only at hok
            have hrec := ih wp w1 w2 msg hok hfail
            simp only [List.cons_append, execLoop, hd, List.append_eq, hrec]
  · intro fuel plan w hev
    unfold executePlan
    rcases hel : execLoop plan.steps w with ⟨l, w1⟩
    rw [hel] at hev
    rcases hev2 : evaluateAll fuel w1 with ⟨oe, w2⟩
    rw [hev2] at hev
    simp only at hev
    subst hev
    simp [hel, hev2]

/-- Workbook after the successful first step of the witness plan. -/
def c3wMid : Workbook := (createSheet mkModel "S2").1

/-- Witness steps: create `S2` (succeeds), re-create `Sheet1` (fails),
create `S3` (never reached). -/
def c3StepA : PlanStep := { op := "createSheet", args := { name := some "S2" } }

def c3StepB : PlanStep := { op := "createSheet", args := { name := some "Sheet1" } }

def c3StepC : PlanStep := { op := "createSheet", args := { name := some "S3" } }

/-- Witness for C3 at concrete inputs: both conjuncts of the amended claim
applied to the three-step plan whose middle step fails. -/
theorem c3_witness :
    execLoop ([c3StepA] ++ c3StepB :: [c3StepC]) mkModel
      = ([c3StepA] ++ [{ c3StepB with explain := some "FAILED: Sheet exists" }],
         c3wMid) ∧
    executePlan 60 { steps := [c3StepA] } mkModel
      = (checkpoint (evaluateAll 60 (execLoop [c3StepA] mkModel).2).2 "agent",
         .ok (execLoop [c3StepA] mkModel).1) :=
  ⟨c3_amended.1 [c3StepA] c3StepB [c3StepC] mkModel c3wMid c3wMid "Sheet exists"
      (by decide) (by decide),
   c3_amended.2 60 { steps := [c3StepA] } mkModel (by decide)⟩

/-! ### C6: what the evaluator does and does not change -/

theorem getq_map {α β : Type} (f : α → β) :
    ∀ (l : List α) (i : Nat), (l.map f)[i]? = (l[i]?).map f := by
  intro l
  induction l with
  | nil => intro i; simp
  | cons a t ih =>
      intro i
      cases i with
      | zero => simp
      | succ i => simpa using ih i

theorem getq_append_of_some {α : Type} {l : List α} (l2 : List α) {i : Nat}
    {a : α} (h : l[i]? = some a) : (l ++ l2)[i]? = some a := by
  induction l generalizing i with
  | nil => simp at h
  | cons x t ih =>
      cases i with
      | zero => simpa using h
      | succ i => simpa using ih (by simpa using h)

theorem getq_append_cases {α : Type} {l l2 : List α} {i : Nat} {a : α}
    (h : (l ++ l2)[i]? = some a) : l[i]? = some a ∨ l2[i - l.length]? = some a := by
  induction l generalizing i with
  | nil => exact Or.inr (by simpa using h)
  | cons x t ih =>
      cases i with
      | zero => exact Or.inl (by simpa using h)
      | succ i =>
          rcases ih (by simpa using h) with hl | hr
          · exact Or.inl (by simpa using hl)
          · exact Or.inr (by simpa using hr)

theorem getq_replicate {α : Type} {n i : Nat} {x a : α}
    (h : (List.replicate n x)[i]? = some a) : a = x := by
  induction n generalizing i with
  | zero => simp at h
  | succ n ih =>
      cases i with
      | zero => simp [List.replicate] at h; exact h.symm
      | succ i => exact ih (by simpa [List.replicate] using h)

theorem jsMapGet_set_self (m : List (String × Sheet)) (k : String) (v : Sheet) :
    jsMapGet (jsMapSet m k v) k = some v := by
  induction m with
  | nil => simp [jsMapGet, jsMapSet]
  | cons p t ih =>
      rcases p with ⟨k0, v0⟩
      by_cases hk : k0 = k
      · simp [jsMapGet, jsMapSet, hk]
      · simp [jsMapGet, jsMapSet, hk, ih]

theorem jsMapGet_set_other {m : List (String × Sheet)} {k k' : String}
    (v : Sheet) (h : ¬(k' = k)) :
    jsMapGet (jsMapSet m k v) k' = jsMapGet m k' := by
  have hne : ¬(k = k') := fun he => h he.symm
  induction m with
  | nil =>
      simp only [jsMapSet, jsMapGet, if_neg hne]
  | cons p t ih =>
      rcases p with ⟨k0, v0⟩
      by_cases hk : k0 = k
      · subst hk
        simp only [jsMapSet, if_pos rfl, jsMapGet, if_neg hne]
      · simp only [jsMapSet, if_neg hk, jsMapGet]
        by_cases hk2 : k0 = k'
        · simp [hk2]
        · simp [hk2, ih]

theorem jsMapSet_names {m : List (String × Sheet)} {k : String} {s : Sheet}
    (v : Sheet) (h : jsMapGet m k = some s) :
    (jsMapSet m k v).map Prod.fst = m.map Prod.fst := by
  induction m with
  | nil => simp [jsMapGet] at h
  | cons p t ih =>
      rcases p with ⟨k0, v0⟩
      by_cases hk : k0 = k
      · simp [jsMapSet, hk]
      · simp only [jsMapGet, if_neg hk] at h
        simp [jsMapSet, hk, ih h]

/-- The frame the formula evaluator respects: events, checkpoints, heap and
the sheet-name list are untouched; every existing cell keeps its exact
contents; any cell that appears is the empty padding cell. -/
def EvalFrame (w w1 : Workbook) : Prop :=
  w1.events = w.events ∧ w1.checkpoints = w.checkpoints ∧ w1.heap = w.heap ∧
  w1.sheets.map Prod.fst = w.sheets.map Prod.fst ∧
  (∀ s r c cell, lookupCell w s r c = some cell → lookupCell w1 s r c = some cell) ∧
  (∀ s r c cell, lookupCell w1 s r c = some cell →
    lookupCell w s r c = some cell ∨ cell = emptyCell)

theorem evalFrame_refl (w : Workbook) : EvalFrame w w :=
  ⟨Eq.refl _, Eq.refl _, Eq.refl _, Eq.refl _,
   fun _ _ _ _ h => h, fun _ _ _ _ h => Or.inl h⟩

theorem evalFrame_trans {w w1 w2 : Workbook} (h1 : EvalFrame w w1)
    (h2 : EvalFrame w1 w2) : EvalFrame w w2 := by
  obtain ⟨e1, c1, h1h, n1, f1, b1⟩ := h1
  obtain ⟨e2, c2, h2h, n2, f2, b2⟩ := h2
  refine ⟨e2.trans e1, c2.trans c1, h2h.trans h1h, n2.trans n1, ?_, ?_⟩
  · exact fun s r c cell h => f2 s r c cell (f1 s r c cell h)
  · intro s r c cell h
    rcases b2 s r c cell h with h1c | he
    · exact b1 s r c cell h1c
    · exact Or.inr he

theorem lookupCell_of_get {w : Workbook} {s : String} {sh : Sheet}
    (h : jsMapGet w.sheets s = some sh) (r c : Nat) :
    lookupCell w s r c =
      match sh.rows[r]? with
      | none => none
      | some row => row[c]? := by
  unfold lookupCell
  rw [h]

/-- The padded grid produced by `ensureSize` on an existing sheet. -/
def padGrid (rs : List (List Cell)) (a b : Nat) : List (List Cell) :=
  (rs ++ List.replicate a ([] : List Cell)).map
    (fun row => row ++ List.replicate (b - row.length) emptyCell)

theorem padGrid_get_forward {rs : List (List Cell)} {row : List Cell}
    {r c : Nat} {cell : Cell} (a b : Nat)
    (hr : rs[r]? = some row) (hc : row[c]? = some cell) :
    (padGrid rs a b)[r]?
      = some (row ++ List.replicate (b - row.length) emptyCell) ∧
    (row ++ List.replicate (b - row.length) emptyCell)[c]? = some cell := by
  constructor
  · unfold padGrid
    rw [getq_map, getq_append_of_some _ hr]
    rfl
  · exact getq_append_of_some _ hc

theorem padGrid_get_backward {rs : List (List Cell)} {r c : Nat} {cell : Cell}
    {a b : Nat} {row2 : List Cell}
    (hr2 : (padGrid rs a b)[r]? = some row2)
    (hc2 : row2[c]? = some cell) :
    (∃ row, rs[r]? = some row ∧ row[c]? = some cell) ∨ cell = emptyCell := by
  unfold padGrid at hr2
  rw [getq_map] at hr2
  rcases ho : (rs ++ List.replicate a ([] : List Cell))[r]? with _ | row0
  · rw [ho] at hr2; simp at hr2
  · rw [ho] at hr2
    have hrow2 : row2 = row0 ++ List.replicate (b - row0.length) emptyCell := by
      simpa using hr2.symm
    subst hrow2
    rcases getq_append_cases ho with hrs | hrep
    · rcases getq_append_cases hc2 with hcl | hcr
      · exact Or.inl ⟨row0, hrs, hcl⟩
      · exact Or.inr (getq_replicate hcr)
    · have h0 : row0 = [] := getq_replicate hrep
      subst h0
      rcases getq_append_cases hc2 with hcl | hcr
      · simp at hcl
      · exact Or.inr (getq_replicate hcr)

/-- `ensureSize` rewrites the found sheet to its padded grid. -/
theorem ensureSize_of_get {w : Workbook} {name : String} {s : Sheet}
    (rows cols : Int) (hg : jsMapGet w.sheets name = some s) :
    ensureSize w name rows cols =
      (Workbook.mk
        (jsMapSet w.sheets name
          (Sheet.mk s.name (padGrid s.rows (rows.toNat - s.rows.length) cols.toNat)))
        w.checkpoints w.events w.heap,
       none) := by
  unfold ensureSize padGrid
  rw [hg]

theorem ensureSize_frame (w : Workbook) (name : String) (rows cols : Int) :
    EvalFrame w (ensureSize w name rows cols).1 := by
  rcases hg : jsMapGet w.sheets name with _ | s
  · unfold ensureSize
    rw [hg]
    exact evalFrame_refl w
  · rw [ensureSize_of_get rows cols hg]
    refine ⟨Eq.refl _, Eq.refl _, Eq.refl _, jsMapSet_names _ hg, ?_, ?_⟩
    · intro s' r c cell hl
      by_cases hs : s' = name
      · subst hs
        rw [lookupCell_of_get hg] at hl
        rw [lookupCell_of_get (jsMapGet_set_self _ _ _)]
        rcases hr : s.rows[r]? with _ | row
        · rw [hr] at hl; exact absurd hl (by simp)
        · rw [hr] at hl
          obtain ⟨h1, h2⟩ :=
            padGrid_get_forward (rows.toNat - s.rows.length) cols.toNat hr hl
          rw [h1]
          exact h2
      · unfold lookupCell at hl ⊢
        rw [jsMapGet_set_other _ hs]
        exact hl
    · intro s' r c cell hl
      by_cases hs : s' = name
      · subst hs
        rw [lookupCell_of_get (jsMapGet_set_self _ _ _)] at hl
        rw [lookupCell_of_get hg]
        rcases hr2 : (padGrid s.rows (rows.toNat - s.rows.length) cols.toNat)[r]?
          with _ | row2
        · rw [hr2] at hl; exact absurd hl (by simp)
        · rw [hr2] at hl
          rcases padGrid_get_backward hr2 hl with ⟨row, hrow, hcell⟩ | he
          · rw [hrow]; exact Or.inl hcell
          · exact Or.inr he
      · unfold lookupCell at hl ⊢
        rw [jsMapGet_set_other _ hs] at hl
        exact Or.inl hl

/-- A monadic evaluator computation that respects the frame from every
state. -/
def PresFrame {α : Type} (x : EvalM α) : Prop :=
  ∀ w seen, EvalFrame w (x w seen).2.1

theorem presFrame_pure {α : Type} (a : α) : PresFrame (pure a : EvalM α) :=
  fun w _ => evalFrame_refl w

theorem presFrame_fail {α : Type} (msg : String) :
    PresFrame (EvalM.fail msg : EvalM α) :=
  fun w _ => evalFrame_refl w

theorem presFrame_hasSeen (key : String) : PresFrame (EvalM.hasSeen key) :=
  fun w _ => evalFrame_refl w

theorem presFrame_addSeen (key : String) : PresFrame (EvalM.addSeen key) :=
  fun w _ => evalFrame_refl w

theorem presFrame_bind {α β : Type} {x : EvalM α} {f : α → EvalM β}
    (hx : PresFrame x) (hf : ∀ a, PresFrame (f a)) : PresFrame (x >>= f) := by
  intro w seen
  have h1 := hx w seen
  rcases hxe : x w seen with ⟨e, w1, s1⟩
  rw [hxe] at h1
  cases e with
  | error err =>
      have hb : (x >>= f) w seen = (.error err, w1, s1) := by rw [bind_apply, hxe]
      rw [hb]
      exact h1
  | ok a =>
      have hb : (x >>= f) w seen = f a w1 s1 := by rw [bind_apply, hxe]
      rw [hb]
      exact evalFrame_trans h1 (hf a w1 s1)

theorem getCellOp_state (w : Workbook) (sheet : String) (r c : Int) :
    (getCellOp w sheet r c).2 = (ensureSize w sheet (r + 1) (c + 1)).1 := by
  unfold getCellOp
  rcases he : ensureSize w sheet (r + 1) (c + 1) with ⟨w1, err⟩
  cases err with
  | some e => rfl
  | none =>
      dsimp only
      repeat' split
      all_goals rfl

theorem presFrame_getCellM (sheet : String) (r c : Int) :
    PresFrame (EvalM.getCellM sheet r c) := by
  intro w seen
  unfold EvalM.getCellM
  have hstate := getCellOp_state w sheet r c
  rcases hg : getCellOp w sheet r c with ⟨e, w1⟩
  rw [hg] at hstate
  cases e with
  | error err =>
      show EvalFrame w w1
      rw [show w1 = (getCellOp w sheet r c).2 from by rw [hg]]
      rw [getCellOp_state]
      exact ensureSize_frame w sheet (r + 1) (c + 1)
  | ok oc =>
      show EvalFrame w w1
      rw [show w1 = (getCellOp w sheet r c).2 from by rw [hg]]
      rw [getCellOp_state]
      exact ensureSize_frame w sheet (r + 1) (c + 1)

/-- Every call of the evaluator family respects the frame: it changes no
event, no checkpoint, no provenance heap entry, no sheet name, and no
existing cell — it can only append empty padding cells. -/
theorem evalGo_frame : ∀ (fuel : Nat) (call : ECall), PresFrame (evalGo fuel call) := by
  intro fuel
  induction fuel with
  | zero => intro call; exact presFrame_fail _
  | succ fuel ih =>
      intro call
      cases call with
      | cell sheet r c =>
          simp only [evalGo]
          refine presFrame_bind (presFrame_hasSeen _) ?_
          intro hit
          cases hit with
          | true => rw [if_pos rfl]; exact presFrame_pure _
          | false =>
              rw [if_neg (by decide : ¬(false = true))]
              refine presFrame_bind (presFrame_addSeen _) ?_
              intro u
              refine presFrame_bind (presFrame_getCellM _ _ _) ?_
              intro oc
              cases oc with
              | none => exact presFrame_fail _
              | some cell =>
                  dsimp only
                  rcases hform : cell.formula with _ | f0
                  · exact presFrame_pure _
                  · dsimp only
                    by_cases hstr : f0 = ""
                    · rw [if_pos hstr]; exact presFrame_pure _
                    · rw [if_neg hstr]
                      rcases ht : trimChars f0.data with _ | ⟨c0, expr⟩
                      · exact presFrame_pure _
                      · dsimp only
                        by_cases hc : c0 = '='
                        · rw [if_pos hc]
                          refine presFrame_bind (ih _) ?_
                          intro e1
                          refine presFrame_bind (ih _) ?_
                          intro e2
                          rcases jsEval e2.asChars with _ | n
                          · exact presFrame_pure _
                          · exact presFrame_pure _
                        · rw [if_neg hc]; exact presFrame_pure _
      | ref sheet a1 =>
          simp only [evalGo]
          rcases ha : a1ToRc a1 with e | ⟨r, c⟩
          · exact presFrame_fail _
          · dsimp only
            refine presFrame_bind (ih _) ?_
            intro ev
            rcases EVal.asVal ev with n | s | _
            · exact presFrame_pure _
            · exact presFrame_pure _
            · exact presFrame_pure _
      | term sheet t =>
          simp only [evalGo]
          by_cases h1 : (parseRangeSpec (trimChars t)).isSome = true
          · rw [if_pos h1]; exact ih _
          · rw [if_neg h1]
            by_cases h2 : isA1Token (trimChars t) = true
            · rw [if_pos h2]; exact ih _
            · rw [if_neg h2]
              rcases jsNumberChars ((trimChars t).filter (fun c => c ≠ ',')) with _ | n
              · exact presFrame_pure _
              · exact presFrame_pure _
      | argsSum sheet ts =>
          simp only [evalGo]
          cases ts with
          | nil => exact presFrame_pure _
          | cons t rest =>
              dsimp only
              refine presFrame_bind (ih _) ?_
              intro x
              refine presFrame_bind (ih _) ?_
              intro r2
              exact presFrame_pure _
      | rangeSum sheet spec =>
          simp only [evalGo]
          rcases hp : parseRangeSpec spec.data with _ | ⟨s1, s2⟩
          · exact presFrame_pure _
          · dsimp only
            rcases h1 : a1ToRc s1 with e1 | a
            · rcases h2 : a1ToRc s2 with e2 | b
              · exact presFrame_fail _
              · exact presFrame_fail _
            · rcases h2 : a1ToRc s2 with e2 | b
              · exact presFrame_fail _
              · exact ih _
      | rangeLoop sheet r c rhi clo chi =>
          simp only [evalGo]
          by_cases h1 : rhi < r
          · rw [if_pos h1]; exact presFrame_pure _
          · rw [if_neg h1]
            by_cases h2 : chi < c
            · rw [if_pos h2]; exact ih _
            · rw [if_neg h2]
              refine presFrame_bind (ih _) ?_
              intro ev
              refine presFrame_bind (ih _) ?_
              intro rest
              exact presFrame_pure _
      | sums sheet cs =>
          simp only [evalGo]
          cases cs with
          | nil => exact presFrame_pure _
          | cons c0 rest =>
              dsimp only
              rcases hm : matchSumOpen (c0 :: rest) with _ | ⟨seg, after⟩
              · refine presFrame_bind (ih _) ?_
                intro o
                exact presFrame_pure _
              · refine presFrame_bind (ih _) ?_
                intro s
                refine presFrame_bind (ih _) ?_
                intro ro
                exact presFrame_pure _
      | refs sheet cs =>
          simp only [evalGo]
          cases cs with
          | nil => exact presFrame_pure _
          | cons c0 rest =>
              dsimp only
              by_cases hw : isWordChar c0 = true
              · rw [if_pos hw]
                by_cases ha : isA1Token ((c0 :: rest).takeWhile isWordChar) = true
                · rw [if_pos ha]
                  refine presFrame_bind (ih _) ?_
                  intro nv
                  refine presFrame_bind (ih _) ?_
                  intro ro
                  exact presFrame_pure _
                · rw [if_neg ha]
                  refine presFrame_bind (ih _) ?_
                  intro ro
                  exact presFrame_pure _
              · rw [if_neg hw]
                refine presFrame_bind (ih _) ?_
                intro ro
                exact presFrame_pure _

/-- C6 counterexample: evaluating a cell DOES mutate workbook state — on a
fresh model (whose sheet has 0 rows), evaluating cell (0,0) grows the sheet
to 1 row (via `getCell`/`ensureSize`), so the row count is not left as it
was. -/
theorem c6_counterexample :
    (jsMapGet mkModel.sheets "Sheet1").map (fun s => s.rows.length) = some 0 ∧
    (jsMapGet ((evaluateCell 10 mkModel "Sheet1" 0 0 []).2.1).sheets "Sheet1").map
      (fun s => s.rows.length) = some 1 := by
  exact ⟨by decide, by decide⟩

/-- C6 amended: the formula evaluator never changes the event log, the
checkpoints, the provenance heap, the set of sheet names, or any existing
cell (value, formula, format, provenance reference all kept exactly); the
only state effect it can have is growing sheets with empty padding cells
(row and column counts may increase). -/
theorem c6_amended :
    ∀ (fuel : Nat) (w : Workbook) (sheet : String) (r c : Int)
      (seen : List String),
      EvalFrame w (evaluateCell fuel w sheet r c seen).2.1 := by
  intro fuel w sheet r c seen
  have h := evalGo_frame fuel (.cell sheet r c) w seen
  unfold evaluateCell
  rcases hg : evalGo fuel (.cell sheet r c) w seen with ⟨e, w1, s1⟩
  rw [hg] at h
  cases e with
  | error err => exact h
  | ok ev => exact h

/-- A workbook with the literal 5 in A1. -/
def c6wb : Workbook :=
  (setValues mkModel ⟨"Sheet1", 0, 0, 0, 0⟩ [[.num 5]] none).1

/-- Witness for C6: on a concrete workbook, evaluation preserves the event
log and the concrete cell A1 = 5 exactly. -/
theorem c6_witness :
    ((evaluateCell 10 c6wb "Sheet1" 0 0 []).2.1).events = c6wb.events ∧
    lookupCell ((evaluateCell 10 c6wb "Sheet1" 0 0 []).2.1) "Sheet1" 0 0
      = some { value := Val.num 5 } :=
  ⟨(c6_amended 10 c6wb "Sheet1" 0 0 []).1,
   (c6_amended 10 c6wb "Sheet1" 0 0 []).2.2.2.2.1 "Sheet1" 0 0
     { value := Val.num 5 } (by decide)⟩

/-! ### C4 and C5: characterising `setValues` and `linkProvenance` -/

theorem getD_eq_getq {α : Type} (l : List α) (i : Nat) (d : α) :
    l.getD i d = (l[i]?).getD d := by
  induction l generalizing i with
  | nil => simp [List.getD]
  | cons a t ih =>
      cases i with
      | zero => simp [List.getD]
      | succ i => simpa [List.getD] using ih i

theorem getq_set_self {α : Type} {l : List α} {i : Nat} (h : i < l.length)
    (x : α) : (l.set i x)[i]? = some x := by
  induction l generalizing i with
  | nil => simp at h
  | cons a t ih =>
      cases i with
      | zero => simp
      | succ i => simpa using ih (by simpa using h)

theorem getq_set_other {α : Type} (l : List α) {i k : Nat} (h : ¬(k = i))
    (x : α) : (l.set i x)[k]? = l[k]? := by
  induction l generalizing i k with
  | nil => simp
  | cons a t ih =>
      cases i with
      | zero =>
          cases k with
          | zero => exact absurd rfl h
          | succ k => simp
      | succ i =>
          cases k with
          | zero => simp
          | succ k => simpa using ih (show ¬(k = i) from fun he => h (by omega))

theorem getq_append_len {α : Type} (l : List α) (x : α) (t : List α) :
    (l ++ x :: t)[l.length]? = some x := by
  induction l with
  | nil => simp
  | cons a l ih => simpa using ih

theorem length_set {α : Type} (l : List α) (i : Nat) (x : α) :
    (l.set i x).length = l.length := by
  simp

theorem listSetGrow_get_self {row : List Cell} {i : Nat} (h : i ≤ row.length)
    (x : Cell) : (listSetGrow row i x)[i]? = some x := by
  unfold listSetGrow
  by_cases h1 : i < row.length
  · rw [if_pos h1]; exact getq_set_self h1 x
  · have h2 : i = row.length := by omega
    rw [if_neg h1, if_pos h2, h2]
    have := getq_append_len row x []
    simpa using this

theorem getq_append_left {α : Type} {l : List α} (l2 : List α) {k : Nat}
    (h : k < l.length) : (l ++ l2)[k]? = l[k]? := by
  induction l generalizing k with
  | nil => simp at h
  | cons a t ih =>
      cases k with
      | zero => simp
      | succ k => simpa using ih (by simpa using h)

theorem listSetGrow_get_other {row : List Cell} {i k : Nat} (hi : i ≤ row.length)
    (h : ¬(k = i)) (x : Cell) : (listSetGrow row i x)[k]? = row[k]? := by
  unfold listSetGrow
  by_cases h1 : i < row.length
  · rw [if_pos h1]; exact getq_set_other row h x
  · have h2 : i = row.length := by omega
    rw [if_neg h1, if_pos h2]
    by_cases hk : k < row.length
    · exact getq_append_left [x] hk
    · have hl : (row ++ [x]).length ≤ k := by simp; omega
      rw [List.getElem?_eq_none hl, List.getElem?_eq_none (by omega)]

theorem listSetGrow_length {row : List Cell} {i : Nat} (h : i ≤ row.length)
    (x : Cell) : (listSetGrow row i x).length = max row.length (i + 1) := by
  unfold listSetGrow
  by_cases h1 : i < row.length
  · rw [if_pos h1]; simp; omega
  · have h2 : i = row.length := by omega
    rw [if_neg h1, if_pos h2]
    simp; omega

/-- The cell record `setValues` writes: previous cell with the new value,
formula cleared, and the given provenance reference. -/
def svCellP (row : List Cell) (cc : Nat) (v0 : Val) (ref : Option Nat) : Cell :=
  { row.getD cc emptyCell with value := v0, formula := none, provenance := ref }

theorem svWriteRow_cons_none (heap : List (List CellProvenance))
    (row : List Cell) (cc : Nat) (v0 : Val) (rest : List Val) :
    svWriteRow heap row cc (v0 :: rest) none =
      svWriteRow heap
        (listSetGrow row cc (svCellP row cc v0 (row.getD cc emptyCell).provenance))
        (cc + 1) rest none := rfl

theorem svWriteRow_cons_some (heap : List (List CellProvenance))
    (row : List Cell) (cc : Nat) (v0 : Val) (rest : List Val)
    (pv : List CellProvenance) :
    svWriteRow heap row cc (v0 :: rest) (some pv) =
      svWriteRow (heap ++ [pv])
        (listSetGrow row cc (svCellP row cc v0 (some heap.length)))
        (cc + 1) rest (some pv) := rfl

theorem svWriteRow_spec :
    ∀ (vals : List Val) (heap : List (List CellProvenance)) (row : List Cell)
      (cc : Nat) (provArg : Option (List CellProvenance)),
      cc ≤ row.length →
      (∃ tail, (svWriteRow heap row cc vals provArg).1 = heap ++ tail) ∧
      row.length ≤ (svWriteRow heap row cc vals provArg).2.length ∧
      (∀ k, (k < cc ∨ cc + vals.length ≤ k) →
        (svWriteRow heap row cc vals provArg).2[k]? = row[k]?) ∧
      (∀ j v, vals[j]? = some v →
        ∃ cellOut,
          (svWriteRow heap row cc vals provArg).2[cc + j]? = some cellOut ∧
          cellOut.value = v ∧ cellOut.formula = none ∧
          cellOut.format = (row.getD (cc + j) emptyCell).format ∧
          (match provArg with
           | none => cellOut.provenance = (row.getD (cc + j) emptyCell).provenance
           | some pv => ∃ i2, cellOut.provenance = some i2 ∧ heap.length ≤ i2 ∧
               (svWriteRow heap row cc vals provArg).1[i2]? = some pv)) := by
  intro vals
  induction vals with
  | nil =>
      intro heap row cc provArg hcc
      refine ⟨⟨[], by simp [svWriteRow]⟩, by simp [svWriteRow], ?_, ?_⟩
      · intro k hk; simp [svWriteRow]
      · intro j v hj; simp at hj
  | cons v0 rest ih =>
      intro heap row cc provArg hcc
      cases provArg with
      | none =>
          rw [svWriteRow_cons_none]
          have hcc1 : cc + 1 ≤ (listSetGrow row cc
              (svCellP row cc v0 (row.getD cc emptyCell).provenance)).length := by
            rw [listSetGrow_length hcc]; omega
          obtain ⟨⟨tail1, htail⟩, hlen, hframe, hwr⟩ :=
            ih heap (listSetGrow row cc
              (svCellP row cc v0 (row.getD cc emptyCell).provenance)) (cc + 1)
              none hcc1
          refine ⟨⟨tail1, htail⟩, ?_, ?_, ?_⟩
          · have h2 : row.length ≤ (listSetGrow row cc
                (svCellP row cc v0 (row.getD cc emptyCell).provenance)).length := by
              rw [listSetGrow_length hcc]; omega
            omega
          · intro k hk
            have hk2 : k < cc ∨ cc + (rest.length + 1) ≤ k := by
              rcases hk with h | h
              · exact Or.inl h
              · exact Or.inr (by simpa using h)
            have hk1 : k < cc + 1 ∨ (cc + 1) + rest.length ≤ k := by omega
            rw [hframe k hk1,
              listSetGrow_get_other hcc (by omega) _]
          · intro j v hj
            cases j with
            | zero =>
                refine ⟨svCellP row cc v0 (row.getD cc emptyCell).provenance,
                  ?_, ?_, ?_, ?_, ?_⟩
                · rw [show cc + 0 = cc from by omega,
                    hframe cc (Or.inl (by omega)), listSetGrow_get_self hcc]
                · simp at hj; rw [← hj]; rfl
                · rfl
                · show (svCellP row cc v0 _).format = (row.getD (cc + 0) emptyCell).format
                  rw [show cc + 0 = cc from by omega]; rfl
                · show (svCellP row cc v0 _).provenance
                    = (row.getD (cc + 0) emptyCell).provenance
                  rw [show cc + 0 = cc from by omega]; rfl
            | succ j =>
                have hj2 : rest[j]? = some v := by simpa using hj
                obtain ⟨cellOut, hco, hv, hfo, hfmt, hprov⟩ := hwr j v hj2
                have harith : cc + (j + 1) = (cc + 1) + j := by omega
                have hgd : (listSetGrow row cc
                    (svCellP row cc v0 (row.getD cc emptyCell).provenance)).getD
                      ((cc + 1) + j) emptyCell = row.getD (cc + (j + 1)) emptyCell := by
                  rw [getD_eq_getq, listSetGrow_get_other hcc (by omega) _,
                    harith, ← getD_eq_getq]
                refine ⟨cellOut, by rw [harith]; exact hco, hv, hfo, ?_, ?_⟩
                · rw [hfmt, hgd]
                · simp only at hprov ⊢
                  rw [hprov, hgd]
      | some pv =>
          rw [svWriteRow_cons_some]
          have hcc1 : cc + 1 ≤ (listSetGrow row cc
              (svCellP row cc v0 (some heap.length))).length := by
            rw [listSetGrow_length hcc]; omega
          obtain ⟨⟨tail1, htail⟩, hlen, hframe, hwr⟩ :=
            ih (heap ++ [pv]) (listSetGrow row cc
              (svCellP row cc v0 (some heap.length))) (cc + 1) (some pv) hcc1
          refine ⟨⟨pv :: tail1, by rw [htail]; simp⟩, ?_, ?_, ?_⟩
          · have h2 : row.length ≤ (listSetGrow row cc
                (svCellP row cc v0 (some heap.length))).length := by
              rw [listSetGrow_length hcc]; omega
            omega
          · intro k hk
            have hk2 : k < cc ∨ cc + (rest.length + 1) ≤ k := by
              rcases hk with h | h
              · exact Or.inl h
              · exact Or.inr (by simpa using h)
            have hk1 : k < cc + 1 ∨ (cc + 1) + rest.length ≤ k := by omega
            rw [hframe k hk1,
              listSetGrow_get_other hcc (by omega) _]
          · intro j v hj
            cases j with
            | zero =>
                refine ⟨svCellP row cc v0 (some heap.length), ?_, ?_, ?_, ?_, ?_⟩
                · rw [show cc + 0 = cc from by omega,
                    hframe cc (Or.inl (by omega)), listSetGrow_get_self hcc]
                · simp at hj; rw [← hj]; rfl
                · rfl
                · show (svCellP row cc v0 _).format = (row.getD (cc + 0) emptyCell).format
                  rw [show cc + 0 = cc from by omega]; rfl
                · refine ⟨heap.length, rfl, Nat.le_refl _, ?_⟩
                  rw [htail, show heap ++ [pv] ++ tail1 = heap ++ pv :: tail1 from by simp,
                    getq_append_len]
            | succ j =>
                have hj2 : rest[j]? = some v := by simpa using hj
                obtain ⟨cellOut, hco, hv, hfo, hfmt, hprov⟩ := hwr j v hj2
                have harith : cc + (j + 1) = (cc + 1) + j := by omega
                have hgd : (listSetGrow row cc
                    (svCellP row cc v0 (some heap.length))).getD
                      ((cc + 1) + j) emptyCell = row.getD (cc + (j + 1)) emptyCell := by
                  rw [getD_eq_getq, listSetGrow_get_other hcc (by omega) _,
                    harith, ← getD_eq_getq]
                refine ⟨cellOut, by rw [harith]; exact hco, hv, hfo, ?_, ?_⟩
                · rw [hfmt, hgd]
                · simp only at hprov ⊢
                  obtain ⟨i2, hi2, hge, hentry⟩ := hprov
                  refine ⟨i2, hi2, by simp at hge; omega, hentry⟩

theorem svWriteRows_cons_lt (heap : List (List CellProvenance))
    (rows : List (List Cell)) (r1 c1 rr : Nat) (vrow : List Val)
    (rest : List (List Val)) (provArg : Option (List CellProvenance))
    (h : r1 + rr < rows.length) :
    svWriteRows heap rows r1 c1 rr (vrow :: rest) provArg =
      svWriteRows (svWriteRow heap (rows.getD (r1 + rr) []) c1 vrow provArg).1
        (rows.set (r1 + rr) (svWriteRow heap (rows.getD (r1 + rr) []) c1 vrow provArg).2)
        r1 c1 (rr + 1) rest provArg := by
  rcases h2 : svWriteRow heap (rows.getD (r1 + rr) []) c1 vrow provArg with ⟨hp, rw2⟩
  conv_lhs => rw [svWriteRows]
  rw [if_pos h]
  dsimp only
  rw [h2]

theorem svWriteRows_spec :
    ∀ (values : List (List Val)) (heap : List (List CellProvenance))
      (rows : List (List Cell)) (r1 c1 rr : Nat)
      (provArg : Option (List CellProvenance)),
      r1 + rr + values.length ≤ rows.length →
      (∀ (i : Nat) (row : List Cell), rows[i]? = some row → c1 ≤ row.length) →
      (svWriteRows heap rows r1 c1 rr values provArg).2 = none ∧
      (∃ tail, (svWriteRows heap rows r1 c1 rr values provArg).1.1 = heap ++ tail) ∧
      rows.length = (svWriteRows heap rows r1 c1 rr values provArg).1.2.length ∧
      (∀ rIdx, ¬(r1 + rr ≤ rIdx ∧ rIdx < r1 + rr + values.length) →
        (svWriteRows heap rows r1 c1 rr values provArg).1.2[rIdx]? = rows[rIdx]?) ∧
      (∀ i vrow, values[i]? = some vrow →
        ∃ row0 row1,
          rows[r1 + rr + i]? = some row0 ∧
          (svWriteRows heap rows r1 c1 rr values provArg).1.2[r1 + rr + i]? = some row1 ∧
          (∀ k, (k < c1 ∨ c1 + vrow.length ≤ k) → row1[k]? = row0[k]?) ∧
          (∀ j v, vrow[j]? = some v →
            ∃ cellOut, row1[c1 + j]? = some cellOut ∧
              cellOut.value = v ∧ cellOut.formula = none ∧
              cellOut.format = (row0.getD (c1 + j) emptyCell).format ∧
              (match provArg with
               | none => cellOut.provenance = (row0.getD (c1 + j) emptyCell).provenance
               | some pv => ∃ i2, cellOut.provenance = some i2 ∧ heap.length ≤ i2 ∧
                   (svWriteRows heap rows r1 c1 rr values provArg).1.1[i2]? = some pv))) := by
  intro values
  induction values with
  | nil =>
      intro heap rows r1 c1 rr provArg hb hwide
      refine ⟨rfl, ⟨[], by simp [svWriteRows]⟩, by simp [svWriteRows], ?_, ?_⟩
      · intro rIdx h; simp [svWriteRows]
      · intro i vrow hi; simp at hi
  | cons vrow rest ih =>
      intro heap rows r1 c1 rr provArg hb hwide
      have hlt : r1 + rr < rows.length := by simp at hb; omega
      have hrow0 : rows[r1 + rr]? = some (rows.getD (r1 + rr) []) := by
        rw [getD_eq_getq]
        rcases hx : rows[r1 + rr]? with _ | row0
        · rw [List.getElem?_eq_none_iff] at hx; omega
        · rfl
      have hwide0 : c1 ≤ (rows.getD (r1 + rr) []).length :=
        hwide (r1 + rr) _ hrow0
      obtain ⟨⟨tailR, htailR⟩, hlenR, hframeR, hwrR⟩ :=
        svWriteRow_spec vrow heap (rows.getD (r1 + rr) []) c1 provArg hwide0
      rw [svWriteRows_cons_lt heap rows r1 c1 rr vrow rest provArg hlt]
      rcases hsw : svWriteRow heap (rows.getD (r1 + rr) []) c1 vrow provArg
        with ⟨heap1, row1⟩
      simp only [hsw] at htailR hlenR hframeR hwrR ⊢
      have hlen1 : (rows.set (r1 + rr) row1).length = rows.length := by simp
      have hb1 : r1 + (rr + 1) + rest.length ≤ (rows.set (r1 + rr) row1).length := by
        rw [hlen1]; simp at hb; omega
      have hwide1 : ∀ (i : Nat) (row : List Cell),
          (rows.set (r1 + rr) row1)[i]? = some row → c1 ≤ row.length := by
        intro i row hi
        by_cases hieq : i = r1 + rr
        · subst hieq
          rw [getq_set_self (by omega) _] at hi
          cases hi
          omega
        · rw [getq_set_other rows hieq _] at hi
          exact hwide i row hi
      obtain ⟨herr2, ⟨tail2, htail2⟩, hlen2, hframe2, hwr2⟩ :=
        ih heap1 (rows.set (r1 + rr) row1) r1 c1 (rr + 1) provArg hb1 hwide1
      refine ⟨herr2, ⟨tailR ++ tail2, by rw [htail2, htailR]; simp⟩,
        by rw [← hlen2, hlen1], ?_, ?_⟩
      · intro rIdx hout
        have hout2 : ¬(r1 + (rr + 1) ≤ rIdx ∧ rIdx < r1 + (rr + 1) + rest.length) := by
          simp at hout; omega
        rw [hframe2 rIdx hout2,
          getq_set_other rows (by simp at hout; omega) _]
      · intro i vrow2 hi
        cases i with
        | zero =>
            have hvr : vrow2 = vrow := by simpa using hi.symm
            subst hvr
            have harr : r1 + rr + 0 = r1 + rr := by omega
            refine ⟨rows.getD (r1 + rr) [], row1, by rw [harr]; exact hrow0, ?_, ?_, ?_⟩
            · rw [harr, hframe2 (r1 + rr) (by omega),
                getq_set_self (by omega) _]
            · intro k hk
              exact hframeR k hk
            · intro j v hj
              obtain ⟨cellOut, hco, hv, hfo, hfmt, hprov⟩ := hwrR j v hj
              refine ⟨cellOut, hco, hv, hfo, hfmt, ?_⟩
              cases provArg with
              | none => exact hprov
              | some pv =>
                  simp only at hprov ⊢
                  obtain ⟨i2, hi2, hge, hentry⟩ := hprov
                  refine ⟨i2, hi2, hge, ?_⟩
                  rw [htail2]
                  exact getq_append_of_some tail2 hentry
        | succ i =>
            have hi2 : rest[i]? = some vrow2 := by simpa using hi
            obtain ⟨row0, rowOut, hr0, hrOut, hfr, hwcells⟩ := hwr2 i vrow2 hi2
            have harr : r1 + rr + (i + 1) = r1 + (rr + 1) + i := by omega
            have hr0' : rows[r1 + rr + (i + 1)]? = some row0 := by
              rw [harr]
              rw [getq_set_other rows (by omega) _] at hr0
              exact hr0
            refine ⟨row0, rowOut, hr0', by rw [harr]; exact hrOut, hfr, ?_⟩
            intro j v hj
            obtain ⟨cellOut, hco, hv, hfo, hfmt, hprov⟩ := hwcells j v hj
            refine ⟨cellOut, hco, hv, hfo, hfmt, ?_⟩
            cases provArg with
            | none => exact hprov
            | some pv =>
                simp only at hprov ⊢
                obtain ⟨i2, hi2x, hge, hentry⟩ := hprov
                have hlenext : heap.length ≤ heap1.length := by
                  rw [htailR]; simp
                exact ⟨i2, hi2x, by omega, hentry⟩

theorem padGrid_length (rs : List (List Cell)) (a b : Nat) :
    (padGrid rs a b).length = rs.length + a := by
  simp [padGrid]

theorem padGrid_row_wide {rs : List (List Cell)} {a b i : Nat}
    {row : List Cell} (h : (padGrid rs a b)[i]? = some row) : b ≤ row.length := by
  unfold padGrid at h
  rw [getq_map] at h
  rcases ho : (rs ++ List.replicate a ([] : List Cell))[i]? with _ | row0
  · rw [ho] at h; simp at h
  · rw [ho] at h
    simp only [Option.map] at h
    have hr : row = row0 ++ List.replicate (b - row0.length) emptyCell := by
      cases h; rfl
    subst hr
    simp
    omega

theorem snapshot_of_get {w : Workbook} {range : RangeRef} {sh : Sheet}
    (hg : jsMapGet w.sheets range.sheet = some sh) :
    ∃ before, snapshot w range =
      (.ok before,
       (ensureSize w range.sheet ((range.r2 : Int) + 1) ((range.c2 : Int) + 1)).1) := by
  unfold snapshot
  rw [hg, ensureSize_of_get ((range.r2 : Int) + 1) ((range.c2 : Int) + 1) hg]
  exact ⟨_, rfl⟩

theorem cellView_of_get {w : Workbook} {s : String} {sh : Sheet}
    (hg : jsMapGet w.sheets s = some sh) (r c : Nat) :
    cellView w s r c = (sh.rows.getD r []).getD c emptyCell := by
  unfold cellView lookupCell
  rw [hg]
  dsimp only
  rw [getD_eq_getq sh.rows r ([] : List Cell)]
  rcases h : sh.rows[r]? with _ | row
  · simp [List.getD]
  · show row[c]?.getD emptyCell = ((some row).getD []).getD c emptyCell
    rw [show ((some row).getD ([] : List Cell)) = row from rfl, getD_eq_getq]

theorem evalFrame_cellView {w w1 : Workbook} (h : EvalFrame w w1) (s : String)
    (r c : Nat) : cellView w1 s r c = cellView w s r c := by
  obtain ⟨_, _, _, _, hf, hb⟩ := h
  unfold cellView
  rcases h1 : lookupCell w s r c with _ | cell
  · rcases h2 : lookupCell w1 s r c with _ | cell1
    · rfl
    · rcases hb s r c cell1 h2 with hx | he
      · rw [h1] at hx; cases hx
      · rw [he]; rfl
  · rw [hf s r c cell h1]

/-- Executable heap well-formedness: every provenance reference stored in any
cell of any sheet points inside the heap. -/
def heapWFb (w : Workbook) : Bool :=
  w.sheets.all (fun p => p.2.rows.all (fun row => row.all (fun cell =>
    match cell.provenance with
    | none => true
    | some i => decide (i < w.heap.length))))

theorem mem_of_getq {α : Type} {l : List α} {i : Nat} {a : α}
    (h : l[i]? = some a) : a ∈ l := by
  induction l generalizing i with
  | nil => simp at h
  | cons x t ih =>
      cases i with
      | zero => simp at h; subst h; exact List.mem_cons_self _ _
      | succ i => exact List.mem_cons_of_mem _ (ih (by simpa using h))

theorem jsMapGet_mem {m : List (String × Sheet)} {k : String} {v : Sheet}
    (h : jsMapGet m k = some v) : (k, v) ∈ m := by
  induction m with
  | nil => simp [jsMapGet] at h
  | cons p rest ih =>
      rcases p with ⟨k0, v0⟩
      by_cases hk : k0 = k
      · subst hk
        rw [jsMapGet, if_pos rfl] at h
        cases h
        exact List.mem_cons_self _ _
      · rw [jsMapGet, if_neg hk] at h
        exact List.mem_cons_of_mem _ (ih h)

theorem heapWFb_lookup {w : Workbook} {s : String} {r c : Nat} {cell : Cell}
    {i : Nat} (hwf : heapWFb w = true) (hl : lookupCell w s r c = some cell)
    (hp : cell.provenance = some i) : i < w.heap.length := by
  unfold lookupCell at hl
  rcases hg : jsMapGet w.sheets s with _ | sh
  · rw [hg] at hl; cases hl
  · rw [hg] at hl
    dsimp only at hl
    rcases hr : sh.rows[r]? with _ | row
    · rw [hr] at hl; cases hl
    · rw [hr] at hl
      dsimp only at hl
      have hmem := jsMapGet_mem hg
      unfold heapWFb at hwf
      rw [List.all_eq_true] at hwf
      have h1 := hwf _ hmem
      rw [List.all_eq_true] at h1
      have hrowmem : row ∈ sh.rows := mem_of_getq hr
      have h2 := h1 _ hrowmem
      rw [List.all_eq_true] at h2
      have hcellmem : cell ∈ row := mem_of_getq hl
      have h3 := h2 _ hcellmem
      rw [hp] at h3
      simpa using h3

theorem heapWFb_cellView {w : Workbook} {s : String} {r c i : Nat}
    (hwf : heapWFb w = true) (hp : (cellView w s r c).provenance = some i) :
    i < w.heap.length := by
  unfold cellView at hp
  rcases hl : lookupCell w s r c with _ | cell
  · rw [hl] at hp; cases hp
  · rw [hl] at hp
    exact heapWFb_lookup hwf hl hp

theorem getD_append_left {α : Type} {l : List α} (t : List α) {i : Nat}
    (h : i < l.length) (d : α) : (l ++ t).getD i d = l.getD i d := by
  rw [getD_eq_getq, getD_eq_getq, getq_append_left t h]

theorem provView_frame_of {w w1 : Workbook} {s : String} {r c : Nat}
    (hcv : cellView w1 s r c = cellView w s r c)
    (htail : ∃ tail, w1.heap = w.heap ++ tail)
    (hwf : heapWFb w = true) : provView w1 s r c = provView w s r c := by
  obtain ⟨tail, htail2⟩ := htail
  unfold provView
  rw [hcv]
  rcases hp : (cellView w s r c).provenance with _ | i
  · rfl
  · dsimp only
    rw [htail2, getD_append_left tail (heapWFb_cellView hwf hp)]

theorem cellView_appendEvent (w : Workbook) (op : String) (args : Args)
    (inv : InverseSpec) (summ : String) (s : String) (r c : Nat) :
    cellView (appendEvent w op args inv summ) s r c = cellView w s r c := rfl

theorem provView_appendEvent (w : Workbook) (op : String) (args : Args)
    (inv : InverseSpec) (summ : String) (s : String) (r c : Nat) :
    provView (appendEvent w op args inv summ) s r c = provView w s r c := rfl

/-- The sheet produced by one `ensureSize` pass over `sh` for the bounding
box of `range`. -/
def esSheet (sh : Sheet) (range : RangeRef) : Sheet :=
  Sheet.mk sh.name
    (padGrid sh.rows (((range.r2 : Int) + 1).toNat - sh.rows.length)
      ((range.c2 : Int) + 1).toNat)

/-- The workbook produced by that `ensureSize` pass. -/
def esWb (w : Workbook) (range : RangeRef) (sh : Sheet) : Workbook :=
  Workbook.mk (jsMapSet w.sheets range.sheet (esSheet sh range))
    w.checkpoints w.events w.heap

theorem ensureSize_es {w : Workbook} {range : RangeRef} {sh : Sheet}
    (hg : jsMapGet w.sheets range.sheet = some sh) :
    ensureSize w range.sheet ((range.r2 : Int) + 1) ((range.c2 : Int) + 1)
      = (esWb w range sh, none) := by
  rw [ensureSize_of_get ((range.r2 : Int) + 1) ((range.c2 : Int) + 1) hg]
  rfl

/-- The grid `setValues` writes into: the original sheet after the two
`ensureSize` passes (one inside `snapshot`, one in `setValues` itself). -/
def svGrid (sh : Sheet) (range : RangeRef) : List (List Cell) :=
  (esSheet (esSheet sh range) range).rows

theorem svGrid_eq (sh : Sheet) (range : RangeRef) :
    (esSheet (esSheet sh range) range).rows = svGrid sh range := rfl

theorem svGrid_length (sh : Sheet) (range : RangeRef) :
    (svGrid sh range).length = max (range.r2 + 1) sh.rows.length := by
  have h2 : ((range.r2 : Int) + 1).toNat = range.r2 + 1 := by omega
  simp [svGrid, esSheet, padGrid_length, h2]
  omega

theorem svGrid_wide {sh : Sheet} {range : RangeRef} (hc : range.c1 ≤ range.c2) :
    ∀ (i : Nat) (row : List Cell), (svGrid sh range)[i]? = some row →
      range.c1 ≤ row.length := by
  intro i row h
  have hb := padGrid_row_wide h
  have h2 : ((range.c2 : Int) + 1).toNat = range.c2 + 1 := by omega
  omega

theorem svGrid_cellView {w : Workbook} {range : RangeRef} {sh : Sheet}
    (hg : jsMapGet w.sheets range.sheet = some sh) (r c : Nat) :
    ((svGrid sh range).getD r []).getD c emptyCell = cellView w range.sheet r c := by
  have hg1 : jsMapGet (esWb w range sh).sheets range.sheet = some (esSheet sh range) :=
    jsMapGet_set_self _ _ _
  have hg2 : jsMapGet (esWb (esWb w range sh) range (esSheet sh range)).sheets
      range.sheet = some (esSheet (esSheet sh range) range) :=
    jsMapGet_set_self _ _ _
  have hcv2 := cellView_of_get hg2 r c
  have hf1 : EvalFrame w (esWb w range sh) := by
    have h := ensureSize_frame w range.sheet ((range.r2 : Int) + 1) ((range.c2 : Int) + 1)
    rw [ensureSize_es hg] at h
    exact h
  have hf2 : EvalFrame (esWb w range sh) (esWb (esWb w range sh) range (esSheet sh range)) := by
    have h := ensureSize_frame (esWb w range sh) range.sheet
      ((range.r2 : Int) + 1) ((range.c2 : Int) + 1)
    rw [ensureSize_es hg1] at h
    exact h
  have hcv := evalFrame_cellView (evalFrame_trans hf1 hf2) range.sheet r c
  rw [hcv2] at hcv
  exact hcv

theorem jsMapSet_set (m : List (String × Sheet)) (k : String) (v1 v2 : Sheet) :
    jsMapSet (jsMapSet m k v1) k v2 = jsMapSet m k v2 := by
  induction m with
  | nil => simp [jsMapSet]
  | cons p rest ih =>
      rcases p with ⟨k0, v0⟩
      by_cases hk : k0 = k
      · simp [jsMapSet, hk]
      · simp [jsMapSet, hk, ih]

theorem setValues_parts {w : Workbook} {range : RangeRef} {sh : Sheet}
    (values : List (List Val)) (provArg : Option (List CellProvenance))
    (hg : jsMapGet w.sheets range.sheet = some sh)
    (herr : (svWriteRows w.heap (svGrid sh range) range.r1 range.c1 0 values
        provArg).2 = none) :
    (setValues w range values provArg).2 = none ∧
    (setValues w range values provArg).1.heap
      = (svWriteRows w.heap (svGrid sh range) range.r1 range.c1 0 values
          provArg).1.1 ∧
    (setValues w range values provArg).1.sheets
      = jsMapSet w.sheets range.sheet (Sheet.mk sh.name
          (svWriteRows w.heap (svGrid sh range) range.r1 range.c1 0 values
            provArg).1.2) := by
  obtain ⟨before, hsnap⟩ := snapshot_of_get hg
  have hg1 : jsMapGet (esWb w range sh).sheets range.sheet = some (esSheet sh range) :=
    jsMapGet_set_self _ _ _
  rw [ensureSize_es hg] at hsnap
  unfold setValues
  rw [hsnap]
  dsimp only
  rw [ensureSize_es hg1]
  dsimp only
  have hg2 : jsMapGet (esWb (esWb w range sh) range (esSheet sh range)).sheets
      range.sheet = some (esSheet (esSheet sh range) range) :=
    jsMapGet_set_self _ _ _
  rw [hg2]
  dsimp only [Option.getD, esWb]
  rw [svGrid_eq]
  rcases hsv : svWriteRows w.heap (svGrid sh range) range.r1 range.c1 0 values
      provArg with ⟨⟨heap1, rows1⟩, err⟩
  rw [hsv] at herr
  dsimp only at herr
  subst herr
  dsimp only
  refine ⟨rfl, rfl, ?_⟩
  show jsMapSet (jsMapSet (jsMapSet w.sheets range.sheet (esSheet sh range))
      range.sheet (esSheet (esSheet sh range) range)) range.sheet
      (Sheet.mk (esSheet (esSheet sh range) range).name rows1)
    = jsMapSet w.sheets range.sheet (Sheet.mk sh.name rows1)
  rw [jsMapSet_set, jsMapSet_set]
  rfl

theorem setValues_spec (w : Workbook) (range : RangeRef)
    (values : List (List Val)) (provArg : Option (List CellProvenance))
    (sh : Sheet) (hg : jsMapGet w.sheets range.sheet = some sh)
    (hc : range.c1 ≤ range.c2)
    (hr : range.r1 + values.length ≤ max (range.r2 + 1) sh.rows.length) :
    (setValues w range values provArg).2 = none ∧
    (∃ tail, (setValues w range values provArg).1.heap = w.heap ++ tail) ∧
    (∀ s r c,
      (s = range.sheet →
        ¬(range.r1 ≤ r ∧ r < range.r1 + values.length ∧ range.c1 ≤ c ∧
          c < range.c1 + (values.getD (r - range.r1) []).length)) →
      cellView (setValues w range values provArg).1 s r c = cellView w s r c) ∧
    (∀ i vrow, values[i]? = some vrow → ∀ j v, vrow[j]? = some v →
      (cellView (setValues w range values provArg).1 range.sheet
          (range.r1 + i) (range.c1 + j)).value = v ∧
      (cellView (setValues w range values provArg).1 range.sheet
          (range.r1 + i) (range.c1 + j)).formula = none ∧
      (cellView (setValues w range values provArg).1 range.sheet
          (range.r1 + i) (range.c1 + j)).format
        = (cellView w range.sheet (range.r1 + i) (range.c1 + j)).format ∧
      (match provArg with
       | none =>
           (cellView (setValues w range values provArg).1 range.sheet
             (range.r1 + i) (range.c1 + j)).provenance
           = (cellView w range.sheet (range.r1 + i) (range.c1 + j)).provenance
       | some pv =>
           provView (setValues w range values provArg).1 range.sheet
             (range.r1 + i) (range.c1 + j) = pv)) := by
  have hlen2 := svGrid_length sh range
  have hwide2 : ∀ (i : Nat) (row : List Cell), (svGrid sh range)[i]? = some row →
      range.c1 ≤ row.length := svGrid_wide hc
  obtain ⟨herr, ⟨tail, htail⟩, hleneq, hframe, hwrite⟩ :=
    svWriteRows_spec values w.heap (svGrid sh range) range.r1 range.c1 0 provArg
      (by rw [hlen2]; omega) hwide2
  obtain ⟨hnone, hheap, hsheets⟩ := setValues_parts values provArg hg herr
  have hg4 : jsMapGet (setValues w range values provArg).1.sheets range.sheet
      = some (Sheet.mk sh.name
          (svWriteRows w.heap (svGrid sh range) range.r1 range.c1 0 values
            provArg).1.2) := by
    rw [hsheets]
    exact jsMapGet_set_self _ _ _
  have hcv4 : ∀ r c, cellView (setValues w range values provArg).1 range.sheet r c
      = ((svWriteRows w.heap (svGrid sh range) range.r1 range.c1 0 values
          provArg).1.2.getD r []).getD c emptyCell := by
    intro r c
    exact cellView_of_get hg4 r c
  refine ⟨hnone, ⟨tail, by rw [hheap, htail]⟩, ?_, ?_⟩
  · intro s r c hout
    by_cases hs : s = range.sheet
    · subst hs
      specialize hout rfl
      by_cases hrr : range.r1 ≤ r ∧ r < range.r1 + values.length
      · obtain ⟨hr1, hr2⟩ := hrr
        have hi : values[r - range.r1]? = some (values.getD (r - range.r1) []) := by
          rw [getD_eq_getq]
          rcases hv : values[r - range.r1]? with _ | vr
          · rw [List.getElem?_eq_none_iff] at hv; omega
          · rfl
        obtain ⟨row0, row1, hrow0, hrow1, hfr, _⟩ :=
          hwrite (r - range.r1) _ hi
        have hidx : range.r1 + 0 + (r - range.r1) = r := by omega
        rw [hidx] at hrow0 hrow1
        have hcout : c < range.c1 ∨
            range.c1 + (values.getD (r - range.r1) []).length ≤ c := by omega
        rw [hcv4 r c, getD_eq_getq _ r, hrow1]
        show row1.getD c emptyCell = cellView w range.sheet r c
        rw [getD_eq_getq row1, hfr c hcout,
          ← svGrid_cellView hg r c, getD_eq_getq (svGrid sh range) r, hrow0]
        rw [← getD_eq_getq row0]
        rfl
      · have hrout : ¬(range.r1 + 0 ≤ r ∧ r < range.r1 + 0 + values.length) := by
          omega
        rw [hcv4 r c, getD_eq_getq _ r, hframe r hrout,
          ← svGrid_cellView hg r c, getD_eq_getq (svGrid sh range) r]
    · have hl : lookupCell (setValues w range values provArg).1 s r c
          = lookupCell w s r c := by
        unfold lookupCell
        rw [hsheets, jsMapGet_set_other _ hs]
      unfold cellView
      rw [hl]
  · intro i vrow hiv j v hjv
    obtain ⟨row0, row1, hrow0, hrow1, hfr, hcells⟩ := hwrite i vrow hiv
    obtain ⟨cellOut, hco, hval, hform, hfmt, hprov⟩ := hcells j v hjv
    have hidx : range.r1 + 0 + i = range.r1 + i := by omega
    rw [hidx] at hrow0 hrow1
    have hcvOut : cellView (setValues w range values provArg).1 range.sheet
        (range.r1 + i) (range.c1 + j) = cellOut := by
      rw [hcv4 (range.r1 + i) (range.c1 + j), getD_eq_getq _ (range.r1 + i), hrow1]
      show row1.getD (range.c1 + j) emptyCell = cellOut
      rw [getD_eq_getq row1, hco]
      rfl
    have hcell0 : row0.getD (range.c1 + j) emptyCell
        = cellView w range.sheet (range.r1 + i) (range.c1 + j) := by
      rw [← svGrid_cellView hg (range.r1 + i) (range.c1 + j),
        getD_eq_getq (svGrid sh range) (range.r1 + i), hrow0]
      rfl
    refine ⟨by rw [hcvOut]; exact hval, by rw [hcvOut]; exact hform,
      by rw [hcvOut, hfmt, hcell0], ?_⟩
    cases provArg with
    | none =>
        dsimp only at hprov ⊢
        rw [hcvOut, hprov, hcell0]
    | some pv =>
        dsimp only at hprov ⊢
        obtain ⟨i2, hi2, hge, hentry⟩ := hprov
        unfold provView
        rw [hcvOut, hi2]
        dsimp only
        rw [hheap, getD_eq_getq, hentry]
        rfl

/-- A 2×2 sheet of numeric zeros, the starting point for the C4 artefacts. -/
def c4wb : Workbook :=
  (setValues mkModel ⟨"Sheet1", 0, 0, 1, 1⟩
    [[.num 0, .num 0], [.num 0, .num 0]] none).1

/-- C4 counterexample: `setValues` on the single-cell range A1:A1 with a 2×2
values array also writes cell B2, which lies outside the addressed range —
the write loop is bounded by the values array, not clipped by the range. -/
theorem c4_counterexample :
    (cellView (setValues c4wb ⟨"Sheet1", 0, 0, 0, 0⟩
        [[.num 1, .num 2], [.num 3, .num 4]] none).1 "Sheet1" 1 1).value
      = Val.num 4 ∧
    (cellView c4wb "Sheet1" 1 1).value = Val.num 0 := by decide

/-- C4: corrected statement.  `setValues` does not clip to the range: it
writes the rectangle anchored at `(r1, c1)` whose extent comes from the
`values` array itself (row `i` spans the length of `values[i]`).  Writing
succeeds when the anchored rows fit in the grown sheet; inside the written
rectangle each cell receives the new value with its formula cleared and its
format kept, and every cell outside it — value, formula, format, and
provenance list — is left exactly unchanged. -/
theorem c4_amended (w : Workbook) (range : RangeRef) (values : List (List Val))
    (provArg : Option (List CellProvenance)) (sh : Sheet)
    (hg : jsMapGet w.sheets range.sheet = some sh)
    (hc : range.c1 ≤ range.c2)
    (hr : range.r1 + values.length ≤ max (range.r2 + 1) sh.rows.length)
    (hwf : heapWFb w = true) :
    (setValues w range values provArg).2 = none ∧
    (∀ s r c, (s = range.sheet → ¬(range.r1 ≤ r ∧ r < range.r1 + values.length ∧
        range.c1 ≤ c ∧ c < range.c1 + (values.getD (r - range.r1) []).length)) →
      cellView (setValues w range values provArg).1 s r c = cellView w s r c ∧
      provView (setValues w range values provArg).1 s r c = provView w s r c) ∧
    (∀ i vrow, values[i]? = some vrow → ∀ j v, vrow[j]? = some v →
      (cellView (setValues w range values provArg).1 range.sheet
          (range.r1 + i) (range.c1 + j)).value = v ∧
      (cellView (setValues w range values provArg).1 range.sheet
          (range.r1 + i) (range.c1 + j)).formula = none ∧
      (cellView (setValues w range values provArg).1 range.sheet
          (range.r1 + i) (range.c1 + j)).format
        = (cellView w range.sheet (range.r1 + i) (range.c1 + j)).format) := by
  obtain ⟨hnone, hheapx, hframe, hwrite⟩ :=
    setValues_spec w range values provArg sh hg hc hr
  refine ⟨hnone, ?_, ?_⟩
  · intro s r c hout
    have hcv := hframe s r c hout
    exact ⟨hcv, provView_frame_of hcv hheapx hwf⟩
  · intro i vrow hiv j v hjv
    obtain ⟨h1, h2, h3, _⟩ := hwrite i vrow hiv j v hjv
    exact ⟨h1, h2, h3⟩

/-- The full 2×2 range of `c4wb`. -/
def c4range : RangeRef := ⟨"Sheet1", 0, 0, 1, 1⟩

def c4vals : List (List Val) := [[Val.num 5, Val.num 6], [Val.num 7, Val.num 8]]

def c4sh : Sheet := (jsMapGet c4wb.sheets "Sheet1").getD ⟨"Sheet1", []⟩

/-- Witness for C4 at a concrete input: writing 2×2 values over the 2×2 range
of a 2×2 sheet succeeds, leaves the far-away cell F6 unchanged, and puts 6
into B1. -/
theorem c4_witness :
    (setValues c4wb c4range c4vals none).2 = none ∧
    cellView (setValues c4wb c4range c4vals none).1 "Sheet1" 5 5
      = cellView c4wb "Sheet1" 5 5 ∧
    (cellView (setValues c4wb c4range c4vals none).1 "Sheet1" 0 1).value
      = Val.num 6 :=
  ⟨(c4_amended c4wb c4range c4vals none c4sh (by decide) (by decide) (by decide)
      (by decide)).1,
   ((c4_amended c4wb c4range c4vals none c4sh (by decide) (by decide) (by decide)
      (by decide)).2.1 "Sheet1" 5 5 (fun _ => by decide)).1,
   ((c4_amended c4wb c4range c4vals none c4sh (by decide) (by decide) (by decide)
      (by decide)).2.2 0 [Val.num 5, Val.num 6] (by decide) 1 (Val.num 6)
      (by decide)).1⟩

theorem getD_set_self {α : Type} {l : List α} {i : Nat} (h : i < l.length)
    (x d : α) : (l.set i x).getD i d = x := by
  rw [getD_eq_getq, getq_set_self h]
  rfl

theorem set_append_len {α : Type} (l : List α) (x y : α) :
    (l ++ [x]).set l.length y = l ++ [y] := by
  induction l with
  | nil => rfl
  | cons a t ih =>
      show a :: ((t ++ [x]).set t.length y) = a :: (t ++ [y])
      rw [ih]

theorem rectPairs_single (r c : Nat) : rectPairs r r c c = [(r, c)] := by
  have h1 : r + 1 - r = 1 := by omega
  have h2 : c + 1 - c = 1 := by omega
  have h3 : List.range 1 = [0] := by decide
  simp [rectPairs, h1, h2, h3]

theorem linkProvenance_single (w : Workbook) (range : RangeRef) (sh : Sheet)
    (prov : List CellProvenance)
    (hg : jsMapGet w.sheets range.sheet = some sh)
    (hr12 : range.r2 = range.r1) (hc12 : range.c2 = range.c1)
    (hwf : heapWFb w = true) :
    (linkProvenance w range prov).2 = none ∧
    provView (linkProvenance w range prov).1 range.sheet range.r1 range.c1
      = provView w range.sheet range.r1 range.c1 ++ prov := by
  obtain ⟨before, hsnap⟩ := snapshot_of_get hg
  rw [ensureSize_es hg] at hsnap
  have hg1 : jsMapGet (esWb w range sh).sheets range.sheet = some (esSheet sh range) :=
    jsMapGet_set_self _ _ _
  have hf1 : EvalFrame w (esWb w range sh) := by
    have h := ensureSize_frame w range.sheet ((range.r2 : Int) + 1)
      ((range.c2 : Int) + 1)
    rw [ensureSize_es hg] at h
    exact h
  have hcell : ((esSheet sh range).rows.getD range.r1 []).getD range.c1 emptyCell
      = cellView w range.sheet range.r1 range.c1 := by
    rw [← evalFrame_cellView hf1 range.sheet range.r1 range.c1]
    exact (cellView_of_get hg1 range.r1 range.c1).symm
  have htn1 : ((range.r2 : Int) + 1).toNat = range.r2 + 1 := by omega
  have hlen1 : (esSheet sh range).rows.length
      = sh.rows.length + (((range.r2 : Int) + 1).toNat - sh.rows.length) :=
    padGrid_length _ _ _
  have hrlt : range.r1 < (esSheet sh range).rows.length := by
    rw [hlen1, htn1]
    omega
  obtain ⟨rowr, hrow⟩ : ∃ rowr, (esSheet sh range).rows[range.r1]? = some rowr :=
    ⟨_, List.getElem?_eq_getElem hrlt⟩
  have hclt : range.c1 < rowr.length := by
    have hb := padGrid_row_wide hrow
    have htn2 : ((range.c2 : Int) + 1).toNat = range.c2 + 1 := by omega
    omega
  have hrowD : (esSheet sh range).rows.getD range.r1 [] = rowr := by
    rw [getD_eq_getq, hrow]
    rfl
  have hrect : rectPairs range.r1 range.r2 range.c1 range.c2
      = [(range.r1, range.c1)] := by
    rw [hr12, hc12, rectPairs_single]
  unfold linkProvenance
  rw [hsnap]
  dsimp only
  rw [hg1]
  dsimp only [Option.getD, esWb]
  rw [hrect]
  dsimp only [List.foldl]
  unfold lpStep
  dsimp only
  rw [hcell]
  rcases hp : (cellView w range.sheet range.r1 range.c1).provenance with _ | iref
  · dsimp only
    refine ⟨rfl, ?_⟩
    rw [provView_appendEvent]
    unfold provView
    rw [cellView_of_get (jsMapGet_set_self _ _ _)]
    dsimp only
    rw [hrowD] at hcell
    have hcellnew : ((updateCellAt (esSheet sh range).rows range.r1 range.c1
        (fun prev => { prev with provenance := some w.heap.length })).getD
          range.r1 []).getD range.c1 emptyCell
        = { cellView w range.sheet range.r1 range.c1 with
            provenance := some w.heap.length } := by
      unfold updateCellAt
      rw [getD_set_self hrlt, hrowD, getD_set_self hclt, hcell]
    rw [hcellnew]
    dsimp only
    have hgd0 : (w.heap ++ [[]]).getD w.heap.length ([] : List CellProvenance)
        = [] := by
      rw [getD_eq_getq, getq_append_len w.heap ([] : List CellProvenance) []]
      rfl
    have hheap2 : (w.heap ++ [[]]).set w.heap.length
        ((w.heap ++ [[]]).getD w.heap.length [] ++ prov) = w.heap ++ [prov] := by
      rw [hgd0]
      show (w.heap ++ [[]]).set w.heap.length prov = w.heap ++ [prov]
      exact set_append_len w.heap [] prov
    rw [hheap2, getD_eq_getq, getq_append_len w.heap prov [], hp]
    rfl
  · dsimp only
    refine ⟨rfl, ?_⟩
    rw [provView_appendEvent]
    unfold provView
    rw [cellView_of_get (jsMapGet_set_self _ _ _)]
    dsimp only
    rw [hcell, hp]
    dsimp only
    have hlt : iref < w.heap.length := heapWFb_cellView hwf hp
    rw [getD_set_self hlt]

def c5p1 : CellProvenance := { docId := "d1" }

def c5p2 : CellProvenance := { docId := "d2" }

/-- The single-cell range A1:A1. -/
def c5r : RangeRef := ⟨"Sheet1", 0, 0, 0, 0⟩

def c5wb1 : Workbook := (setValues mkModel c5r [[.num 1]] (some [c5p1])).1

def c5wb2 : Workbook := (setValues c5wb1 c5r [[.num 2]] (some [c5p2])).1

/-- C5 counterexample: a cell carrying provenance [d1] that is overwritten by
`setValues` with provenance argument [d2] ends up with provenance [d2] — the
existing entry is replaced, not appended to. -/
theorem c5_counterexample :
    provView c5wb1 "Sheet1" 0 0 = [c5p1] ∧
    provView c5wb2 "Sheet1" 0 0 = [c5p2] := by decide

/-- C5: corrected statement.  Only `linkProvenance` is additive: on a cell of
its range it appends the new records after the existing ones.  `setValues`
with a provenance argument replaces the cell's provenance with a fresh copy
of the argument, and `setValues` without one keeps the cell's previous
provenance reference. -/
theorem c5_amended (w : Workbook) (range : RangeRef) (sh : Sheet)
    (prov pv : List CellProvenance) (v : Val)
    (hg : jsMapGet w.sheets range.sheet = some sh)
    (hr12 : range.r2 = range.r1) (hc12 : range.c2 = range.c1)
    (hwf : heapWFb w = true) :
    provView (linkProvenance w range prov).1 range.sheet range.r1 range.c1
      = provView w range.sheet range.r1 range.c1 ++ prov ∧
    provView (setValues w range [[v]] (some pv)).1 range.sheet range.r1 range.c1
      = pv ∧
    (cellView (setValues w range [[v]] none).1 range.sheet range.r1
        range.c1).provenance
      = (cellView w range.sheet range.r1 range.c1).provenance := by
  have hrb : range.r1 + ([[v]] : List (List Val)).length
      ≤ max (range.r2 + 1) sh.rows.length := by
    rw [hr12]
    exact le_max_left _ _
  refine ⟨(linkProvenance_single w range sh prov hg hr12 hc12 hwf).2, ?_, ?_⟩
  · have h := (setValues_spec w range [[v]] (some pv) sh hg (by omega) hrb).2.2.2
      0 [v] rfl 0 v rfl
    have h4 : provView (setValues w range [[v]] (some pv)).1 range.sheet
        (range.r1 + 0) (range.c1 + 0) = pv := h.2.2.2
    rw [Nat.add_zero, Nat.add_zero] at h4
    exact h4
  · have h := (setValues_spec w range [[v]] none sh hg (by omega) hrb).2.2.2
      0 [v] rfl 0 v rfl
    have h4 : (cellView (setValues w range [[v]] none).1 range.sheet
        (range.r1 + 0) (range.c1 + 0)).provenance
        = (cellView w range.sheet (range.r1 + 0) (range.c1 + 0)).provenance :=
      h.2.2.2
    rw [Nat.add_zero, Nat.add_zero] at h4
    exact h4

def c5sh : Sheet := (jsMapGet c5wb1.sheets "Sheet1").getD ⟨"Sheet1", []⟩

/-- Witness for C5 at a concrete input: on the cell with provenance [d1],
`linkProvenance` appends and `setValues` with a provenance argument
replaces. -/
theorem c5_witness :
    provView (linkProvenance c5wb1 c5r [c5p2]).1 "Sheet1" 0 0
      = provView c5wb1 "Sheet1" 0 0 ++ [c5p2] ∧
    provView (setValues c5wb1 c5r [[Val.num 2]] (some [c5p2])).1 "Sheet1" 0 0
      = [c5p2] :=
  ⟨(c5_amended c5wb1 c5r c5sh [c5p2] [c5p2] (Val.num 2) (by decide) (by decide)
      (by decide) (by decide)).1,
   (c5_amended c5wb1 c5r c5sh [c5p2] [c5p2] (Val.num 2) (by decide) (by decide)
      (by decide) (by decide)).2.1⟩

/-! ### C1: undo after a checkpoint does not restore provenance -/

theorem undoN_add (a : Nat) : ∀ (b : Nat) (w : Workbook),
    undoN (a + b) w = undoN a (undoN b w) := by
  intro b
  induction b with
  | zero => intro w; rfl
  | succ b ih =>
      intro w
      show undoN (a + b) (undo w).1 = undoN a (undoN b (undo w).1)
      exact ih (undo w).1

def c1r : RangeRef := ⟨"Sheet1", 0, 0, 0, 0⟩

def c1pA : CellProvenance := { docId := "a" }

def c1pB : CellProvenance := { docId := "b" }

/-- The failing input for C1: write A1 = 1 with provenance [a], take
checkpoint "cp" (A1's provenance list is [a] here), then `linkProvenance`
pushes provenance b into A1's (aliased) provenance array. -/
def wbC1 : Workbook :=
  (linkProvenance
    (checkpoint (setValues mkModel c1r [[.num 1]] (some [c1pA])).1 "cp")
    c1r [c1pB]).1

theorem undoN_wbC1_period : undoN 7 wbC1 = undoN 5 wbC1 := by decide

/-- C1: refuted.  At the checkpoint "cp" cell A1 has provenance list [a], and
the claim says enough `undo()` calls restore that state cell-for-cell.  But
after the subsequent `linkProvenance` (which pushed into the same array the
snapshot shares), NO number of undos ever brings A1's provenance list back to
[a]: the undo chain is eventually periodic with period 2 and [a] never
reappears. -/
theorem c1_undo_never_restores_provenance :
    ∀ k : Nat, decide (provView (undoN k wbC1) "Sheet1" 0 0 = [c1pA]) = false := by
  intro k
  induction k using Nat.strong_induction_on with
  | _ k ih =>
      by_cases h : k < 7
      · interval_cases k <;> decide
      · have h7 : k - 7 + 7 = k := by omega
        have hper : undoN (k - 7 + 7) wbC1 = undoN (k - 7 + 5) wbC1 := by
          rw [undoN_add (k - 7) 7 wbC1, undoN_wbC1_period,
            ← undoN_add (k - 7) 5 wbC1]
        rw [← h7, hper]
        exact ih (k - 7 + 5) (by omega)
